import Mathlib

/-!
Verification development for the pinkml InkML decoder.

This file gives a shallow embedding of the decoder core of the repository
(`inkml/reading.py`, `inkml/reading_types.py`, `inkml/references.py`,
`inkml/ink.py`, `inkml/ids.py`) and settles the frozen claims about it.

Modelling conventions:
* Python floats are modelled as exact rationals (`ℚ`); the one float special
  value the decoder manipulates, the NaN stored in
  `RegularChannel.last_difference`, is modelled as `Option ℚ` with `none`
  standing for NaN.
* A Python function that can (a) return a successful value, (b) return the
  sentinel `None` after emitting a warning, or (c) raise an uncaught exception
  is modelled with the three-valued result type `RRes` below (`ok` / `fail` /
  `crash`).  Warnings themselves carry no data relevant to the claims and are
  not modelled beyond the `fail` outcome.
* The XML provider is abstracted (as in the specification) by the `Elem`
  record: tag, attributes, text, children.
* Strings are processed as `List Char`.  Python's unicode-aware whitespace
  classes are modelled by the ASCII whitespace characters, which are the only
  ones exercised by the decoder's token grammar.
-/

/-- Three-valued outcome of a Python routine: a value, a warned failure that
returns the `None` sentinel, or an uncaught exception (crash). -/
inductive RRes (α : Type) where
  | ok (a : α) : RRes α
  | fail : RRes α
  | crash : RRes α
deriving DecidableEq

/-- Sequencing of `RRes` computations. -/
def RRes.bind {α β : Type} : RRes α → (α → RRes β) → RRes β
  | .ok a, f => f a
  | .fail, _ => .fail
  | .crash, _ => .crash

/-- Characters that may not appear literally in this file are named here. -/
def bangChar : Char := Char.ofNat 33

def dquoteChar : Char := Char.ofNat 34

def hashChar : Char := Char.ofNat 35

def squoteChar : Char := Char.ofNat 39

/-- ASCII whitespace, the model of Python's `\s` class and `str.strip`. -/
def isWsChar (c : Char) : Bool :=
  c = ' ' || c = Char.ofNat 9 || c = Char.ofNat 10 || c = Char.ofNat 13 ||
  c = Char.ofNat 11 || c = Char.ofNat 12

def isDigitChar (c : Char) : Bool :=
  '0' ≤ c && c ≤ '9'

/-- Upper-case hexadecimal digits, the class `[\dA-F]` of the tokenizer. -/
def isHexDigitChar (c : Char) : Bool :=
  isDigitChar c || ('A' ≤ c && c ≤ 'F')

/-- `str.strip()`: drop whitespace from both ends. -/
def stripChars (cs : List Char) : List Char :=
  ((cs.dropWhile isWsChar).reverse.dropWhile isWsChar).reverse

/-- `str.split(sep)` for a one-character separator: split at every occurrence,
keeping empty pieces (as Python does). -/
def splitOnChar (sep : Char) : List Char → List (List Char)
  | [] => [[]]
  | c :: rest =>
    if c = sep then [] :: splitOnChar sep rest
    else
      match splitOnChar sep rest with
      | [] => [[c]]
      | g :: gs => (c :: g) :: gs

/-! ## ids.py -/

/-- `is_local_id(uri)`: length > 1 and first character is `#`. -/
def is_local_id (s : String) : Bool :=
  match s.data with
  | c :: _ :: _ => c = hashChar
  | _ => false

/-- `to_local_id(uri)`: drop the leading `#` of a local id, else unchanged
(`uri[1:]` drops the first character). -/
def to_local_id (s : String) : String :=
  if is_local_id s then String.mk (s.data.drop 1) else s

/-! ## Rounding

`reading.py` rounds integer-typed channel values with Python's built-in
`round`, whose semantics on floats is round-to-nearest with ties to even. -/

/-- Python's built-in `round` on a real value: nearest integer, ties to the
even neighbour. -/
def pythonRound (q : ℚ) : ℤ :=
  let f := ⌊q⌋
  let r := q - f
  if r < 1 / 2 then f
  else if 1 / 2 < r then f + 1
  else if Even f then f else f + 1

/-- Modelled from the spec: rounding "to the nearest integer with exact halves
rounded away from zero", the rounding mode asserted by the specification.
Used only to compare the specification's words against `pythonRound`. -/
def roundHalfAwayFromZero (q : ℚ) : ℤ :=
  if 0 ≤ q then ⌊q + 1 / 2⌋ else ⌈q - 1 / 2⌉

/-! ## Numeric literal parsing

`parse_trace_content` parses the number part of a token with
`int(token[1:], 16)` for hexadecimal tokens and `float(token)` otherwise.
The parsers below follow those Python parsers on the shapes of strings the
tokenizer can produce: hexadecimal digit runs are always clean, while
`float` receives strings that may still carry surrounding whitespace (the
intermittent branch does not strip its tokens) and, there, a sign. -/

def digitVal (c : Char) : ℕ := c.toNat - '0'.toNat

def digitsVal (ds : List Char) : ℕ :=
  ds.foldl (fun a c => 10 * a + digitVal c) 0

def hexDigitVal (c : Char) : ℕ :=
  if isDigitChar c then digitVal c else c.toNat - 'A'.toNat + 10

/-- `int(s, 16)` on the tokenizer's hex digit strings. -/
def parseHexNum (cs : List Char) : Option ℚ :=
  if cs.isEmpty || !(cs.all isHexDigitChar) then none
  else some ((cs.foldl (fun a c => 16 * a + hexDigitVal c) 0 : ℕ) : ℚ)

/-- Exponent suffix of a `float` literal: `[eE][+-]?digits`, applied to the
mantissa `m`; `none` when the remaining characters are not a valid suffix. -/
def parseExpPart (cs : List Char) (m : ℚ) : Option ℚ :=
  match cs with
  | [] => some m
  | e :: r =>
    if e = 'e' || e = 'E' then
      let sr : (ℤ × List Char) :=
        match r with
        | '+' :: rr => (1, rr)
        | '-' :: rr => (-1, rr)
        | _ => (1, r)
      let ds := sr.2.takeWhile isDigitChar
      if ds.isEmpty || !(sr.2.drop ds.length).isEmpty then none
      else some (m * (10 : ℚ) ^ (sr.1 * (digitsVal ds : ℤ)))
    else none

/-- Unsigned decimal literal: `digits ['.' digits*] [exp]` or
`'.' digits [exp]`, with nothing before or after. -/
def parseUnsignedFloat (cs : List Char) : Option ℚ :=
  let ip := cs.takeWhile isDigitChar
  let r1 := cs.drop ip.length
  match r1 with
  | '.' :: r =>
    let fp := r.takeWhile isDigitChar
    let r2 := r.drop fp.length
    if ip.isEmpty && fp.isEmpty then none
    else parseExpPart r2 ((digitsVal ip : ℚ) + (digitsVal fp : ℚ) / (10 : ℚ) ^ fp.length)
  | _ =>
    if ip.isEmpty then none else parseExpPart r1 (digitsVal ip : ℚ)

/-- `float(s)` on the decimal literals the tokenizer produces: surrounding
whitespace is tolerated, then an optional sign directly followed by the
literal (the special literals `inf`/`nan` never reach `float` here). -/
def parseDecimalNum (cs : List Char) : Option ℚ :=
  match stripChars cs with
  | '-' :: r => (parseUnsignedFloat r).map (fun q => -q)
  | '+' :: r => parseUnsignedFloat r
  | cs2 => parseUnsignedFloat cs2

/-! ## The point tokenizer

`Reader.tokenize_expr` is the regular expression
`((?:[!'"]?\s*-?\s*(?:(?:\d+(?:\.\d*)?|(\.\d+))([eE][+-]?\d)?)|(#[\dA-F]+))|[TF*?])`
applied with `findall`: the text is scanned left to right, at each position the
leftmost match is taken greedily (the alternatives of this expression commit
deterministically, so greedy scanning realizes the backtracking semantics),
and unmatched characters are skipped. -/

/-- Body of a decimal token: `\d+(\.\d*)? | \.\d+`, longest match, returning
the matched characters and the rest. -/
def matchDecimalBody (cs : List Char) : Option (List Char × List Char) :=
  let ds := cs.takeWhile isDigitChar
  if ds.isEmpty then
    match cs with
    | '.' :: r =>
      let fs := r.takeWhile isDigitChar
      if fs.isEmpty then none
      else some ('.' :: fs, r.drop fs.length)
    | _ => none
  else
    match cs.drop ds.length with
    | '.' :: r =>
      let fs := r.takeWhile isDigitChar
      some (ds ++ '.' :: fs, r.drop fs.length)
    | r => some (ds, r)

/-- Optional exponent of the source regex: `([eE][+-]?\d)?` — note the single
digit `\d`.  Returns the matched characters (possibly `[]`) and the rest. -/
def matchExponent1 (cs : List Char) : List Char × List Char :=
  match cs with
  | e :: rest =>
    if e = 'e' || e = 'E' then
      match rest with
      | s :: r2 =>
        if s = '+' || s = '-' then
          match r2 with
          | d :: r3 => if isDigitChar d then ([e, s, d], r3) else ([], cs)
          | [] => ([], cs)
        else if isDigitChar s then ([e, s], r2) else ([], cs)
      | [] => ([], cs)
    else ([], cs)
  | [] => ([], cs)

/-- First alternative of the token regex: `[!'"]?\s*-?\s*BODY EXP?`. -/
def matchNumeric (cs : List Char) : Option (List Char × List Char) :=
  let mk : (List Char × List Char) :=
    match cs with
    | c :: rest =>
      if c = bangChar || c = squoteChar || c = dquoteChar then ([c], rest) else ([], cs)
    | [] => ([], cs)
  let w1 := mk.2.takeWhile isWsChar
  let cs2 := mk.2.drop w1.length
  let mn : (List Char × List Char) :=
    match cs2 with
    | '-' :: rest => (['-'], rest)
    | _ => ([], cs2)
  let w2 := mn.2.takeWhile isWsChar
  let cs4 := mn.2.drop w2.length
  match matchDecimalBody cs4 with
  | none => none
  | some br =>
    let ex := matchExponent1 br.2
    some (mk.1 ++ w1 ++ mn.1 ++ w2 ++ br.1 ++ ex.1, ex.2)

/-- Second alternative: `#[\dA-F]+`. -/
def matchHex (cs : List Char) : Option (List Char × List Char) :=
  match cs with
  | c :: rest =>
    if c = hashChar then
      let hs := rest.takeWhile isHexDigitChar
      if hs.isEmpty then none else some (c :: hs, rest.drop hs.length)
    else none
  | [] => none

/-- Third alternative: the single characters `T`, `F`, `*`, `?`. -/
def matchSingle (cs : List Char) : Option (List Char × List Char) :=
  match cs with
  | c :: rest =>
    if c = 'T' || c = 'F' || c = '*' || c = '?' then some ([c], rest) else none
  | [] => none

/-- One attempted match of `tokenize_expr` at the current position. -/
def matchToken (cs : List Char) : Option (List Char × List Char) :=
  match matchNumeric cs with
  | some r => some r
  | none =>
    match matchHex cs with
    | some r => some r
    | none => matchSingle cs

/-- `findall` scan: emit each match, skip each unmatched character.  The fuel
argument bounds the number of scan steps; every step consumes at least one
character, so `cs.length` steps always suffice. -/
def tokenizeGo : ℕ → List Char → List (List Char)
  | 0, _ => []
  | _ + 1, [] => []
  | fuel + 1, c :: rest =>
    match matchToken (c :: rest) with
    | some tr => tr.1 :: tokenizeGo fuel tr.2
    | none => tokenizeGo fuel rest

/-- Tokenization of one point of a trace body:
`[m[0] for m in self.tokenize_expr.findall(point)]`. -/
def tokenizePoint (cs : List Char) : List (List Char) :=
  tokenizeGo cs.length cs

/-! ## Specification-side tokenizer (for claim C6)

Modelled from the spec: "A numeric token is matched by the regular grammar
equivalent to `[!'"]? \s* -? \s* ( digits ('.' digits?)? | '.' digits )
( [eE] [+-]? digits )? | '#' [0-9A-F]+`"; the other tokens are the single
characters `T`, `F`, `*`, `?`.  The body and hex alternatives coincide with
the source regex (`matchDecimalBody`, `matchHex`, `matchSingle` above); the
exponent differs: the spec's `digits` means one or more digits, so the
exponent matcher below is parameterized on that choice (`multi = true` gives
the spec's grammar, `multi = false` gives a single digit). -/

/-- Exponent per the spec grammar `[eE] [+-]? digits`; with `multi = false`
the digits part is exactly one digit. -/
def specMatchExponent (multi : Bool) (cs : List Char) : List Char × List Char :=
  match cs with
  | e :: rest =>
    if e = 'e' || e = 'E' then
      let sg : (List Char × List Char) :=
        match rest with
        | s :: r => if s = '+' || s = '-' then ([s], r) else ([], rest)
        | [] => ([], rest)
      match sg.2 with
      | d :: r3 =>
        if isDigitChar d then
          if multi then
            let ds := r3.takeWhile isDigitChar
            (e :: (sg.1 ++ d :: ds), r3.drop ds.length)
          else (e :: (sg.1 ++ [d]), r3)
        else ([], cs)
      | [] => ([], cs)
    else ([], cs)
  | [] => ([], cs)

/-- Numeric alternative of the spec's token grammar. -/
def specMatchNumeric (multi : Bool) (cs : List Char) : Option (List Char × List Char) :=
  let mk : (List Char × List Char) :=
    match cs with
    | c :: rest =>
      if c = bangChar || c = squoteChar || c = dquoteChar then ([c], rest) else ([], cs)
    | [] => ([], cs)
  let w1 := mk.2.takeWhile isWsChar
  let cs2 := mk.2.drop w1.length
  let mn : (List Char × List Char) :=
    match cs2 with
    | '-' :: rest => (['-'], rest)
    | _ => ([], cs2)
  let w2 := mn.2.takeWhile isWsChar
  let cs4 := mn.2.drop w2.length
  match matchDecimalBody cs4 with
  | none => none
  | some br =>
    let ex := specMatchExponent multi br.2
    some (mk.1 ++ w1 ++ mn.1 ++ w2 ++ br.1 ++ ex.1, ex.2)

/-- One attempted spec-grammar match at the current position. -/
def specMatchToken (multi : Bool) (cs : List Char) : Option (List Char × List Char) :=
  match specMatchNumeric multi cs with
  | some r => some r
  | none =>
    match matchHex cs with
    | some r => some r
    | none => matchSingle cs

def specTokenizeGo (multi : Bool) : ℕ → List Char → List (List Char)
  | 0, _ => []
  | _ + 1, [] => []
  | fuel + 1, c :: rest =>
    match specMatchToken multi (c :: rest) with
    | some tr => tr.1 :: specTokenizeGo multi fuel tr.2
    | none => specTokenizeGo multi fuel rest

/-- Tokens of one point under the spec's grammar (same longest-match scan
semantics as the source's `findall`). -/
def specTokenizePoint (multi : Bool) (cs : List Char) : List (List Char) :=
  specTokenizeGo multi cs.length cs

/-! ## Data model (ink.py) — the parts the claims exercise.

Fields of the Python classes that no claim touches (channel default, min,
max, orientation, respectTo, units; ink-source sample rate, latency, active
area, descriptive strings; brush properties and annotations; trace group /
trace view contents; timestamps) are omitted from the records below. -/

inductive ChannelType where
  | Integer | Decimal | Double | Boolean
deriving DecidableEq

inductive DifferenceOrder where
  | Explicit | Difference | SecondDifference
deriving DecidableEq

/-- `Ink.Property`: a value string with optional units. -/
structure PropertyV where
  value : String
  units : Option String
deriving DecidableEq

/-- `Ink.Channel` (name-bearing fields the claims use; `type` defaults to
decimal as in `Channel.__init__`). -/
structure Channel where
  id : String := ""
  name : String
  type : ChannelType := .Decimal
  properties : List (String × PropertyV) := []
deriving DecidableEq

/-- `Ink.TraceFormat`. -/
structure TraceFormat where
  id : String := ""
  regular_channels : List Channel := []
  intermittent_channels : List Channel := []
deriving DecidableEq

/-- `Ink.InkSource` (identifier and its required trace format). -/
structure InkSource where
  id : String
  trace_format : TraceFormat
deriving DecidableEq

/-- `Ink.Context`: identifier, optional parent, optional ink source and trace
format.  The parent is a nested value, so a context's parent chain is finite
by construction (the Python resolver guarantees this for surviving contexts,
see claim C4 for the brush analogue). -/
inductive Context where
  | mk (id : String) (parent : Option Context) (ink_source : Option InkSource)
      (trace_format : Option TraceFormat)

/-- Equality of contexts is decidable (structural recursion on the parent). -/
def decEqContext : (a b : Context) → Decidable (a = b)
  | .mk i1 p1 s1 f1, .mk i2 p2 s2 f2 =>
    have dp : Decidable (p1 = p2) :=
      match p1, p2 with
      | none, none => .isTrue rfl
      | some c1, some c2 =>
        match decEqContext c1 c2 with
        | .isTrue h => .isTrue (congrArg some h)
        | .isFalse h => .isFalse (fun hh => h (Option.some.inj hh))
      | none, some _ => .isFalse (fun hh => Option.noConfusion hh)
      | some _, none => .isFalse (fun hh => Option.noConfusion hh)
    if h1 : i1 = i2 then
      match dp with
      | .isTrue h2 =>
        if h3 : s1 = s2 then
          if h4 : f1 = f2 then .isTrue (by rw [h1, h2, h3, h4])
          else .isFalse (fun h => by cases h; exact h4 rfl)
        else .isFalse (fun h => by cases h; exact h3 rfl)
      | .isFalse h2 => .isFalse (fun h => by cases h; exact h2 rfl)
    else .isFalse (fun h => by cases h; exact h1 rfl)

instance : DecidableEq Context := decEqContext

def Context.id : Context → String
  | .mk i _ _ _ => i

def Context.parent : Context → Option Context
  | .mk _ p _ _ => p

def Context.ink_source : Context → Option InkSource
  | .mk _ _ s _ => s

def Context.trace_format : Context → Option TraceFormat
  | .mk _ _ _ f => f

/-- `Ink.get_default_trace_format()`. -/
def get_default_trace_format : TraceFormat :=
  { id := "DefaultTraceFormat"
    regular_channels := [{ name := "X" }, { name := "Y" }] }

/-- `Ink.Brush` (identifier only; parent chains are analysed through the
resolver model below, properties and annotations are unused by the claims). -/
structure Brush where
  id : String := ""
deriving DecidableEq

inductive TraceContinuation where
  | Begin | Middle | End | No
deriving DecidableEq

inductive TraceType where
  | PenDown | PenUp | Indeterminate
deriving DecidableEq

/-- `Ink.Trace`.  The channel dictionaries are association lists (insertion
order, last wins).  The `next` pointer, which Python sets by mutating the
prior trace in place, is modelled by the `nextOf` side table of `Defs`. -/
structure Trace where
  id : String := ""
  channels : List (String × List ℚ) := []
  intermittent_channels : List (String × List (ℕ × ℚ)) := []
  continuation : TraceContinuation := .No
  context : Option Context := none
  brush : Option Brush := none
  duration : Option ℤ := none
  time_offset : Option ℤ := none
  type : TraceType := .PenDown
deriving DecidableEq

/-! ## reading_types.py: per-channel decode state -/

/-- `rt.RegularChannel`: decode state of one regular channel.
`last_difference` is `none` for Python's `float('nan')`. -/
structure RegChan where
  name : String
  type : ChannelType
  values : List ℚ := []
  difference_order : DifferenceOrder := .Explicit
  last_difference : Option ℚ := none
deriving DecidableEq

/-- `rt.IntermittentChannel`: decode state of one intermittent channel; the
entries are `(point index, value)` pairs (`Ink.IndexValue`). -/
structure IntChan where
  name : String
  type : ChannelType
  index_values : List (ℕ × ℚ) := []
deriving DecidableEq

/-! ## The channel decoder (`Reader.parse_trace_content`) -/

/-- Appending one parsed numeric value to a regular channel under a given
difference order: the `if/elif/elif` of lines 1054–1085 of `reading.py`,
including the integer rounding and the
`channel.difference_order = difference_order` update. -/
def appendNumeric (ch : RegChan) (difference_order : DifferenceOrder) (num : ℚ) : RRes RegChan :=
  match difference_order with
  | .Explicit =>
    let value := num
    let value := if ch.type = .Integer then ((pythonRound value : ℤ) : ℚ) else value
    .ok { ch with values := ch.values ++ [value], last_difference := none,
                  difference_order := difference_order }
  | .Difference =>
    match ch.values.getLast? with
    | none => .fail
    | some last =>
      let value := last + num
      let value := if ch.type = .Integer then ((pythonRound value : ℤ) : ℚ) else value
      .ok { ch with values := ch.values ++ [value], last_difference := some num,
                    difference_order := difference_order }
  | .SecondDifference =>
    match ch.last_difference with
    | none => .fail
    | some d =>
      match ch.values.getLast? with
      | none => .crash
      | some last =>
        let value := last + d + num
        let value := if ch.type = .Integer then ((pythonRound value : ℤ) : ℚ) else value
        .ok { ch with values := ch.values ++ [value], last_difference := some (d + num),
                      difference_order := difference_order }

/-- Processing of one token for one regular channel (lines 996–1085): the
wildcard, the boolean channel, then marker stripping, whitespace stripping,
sign detection, number parsing and `appendNumeric`.  `crash` marks the spots
where Python would raise `IndexError` on an empty string; the tokenizer never
produces such tokens. -/
def processRegularToken (ch : RegChan) (token : List Char) : RRes RegChan :=
  if token = ['*'] then
    match ch.values.getLast? with
    | some v => .ok { ch with values := ch.values ++ [v] }
    | none => .fail
  else if ch.type = .Boolean then
    if token = ['T'] then .ok { ch with values := ch.values ++ [1] }
    else if token = ['F'] then .ok { ch with values := ch.values ++ [0] }
    else .fail
  else
    match token with
    | [] => .crash
    | c :: rest =>
      let dr : (DifferenceOrder × List Char) :=
        if c = bangChar then (.Explicit, rest)
        else if c = squoteChar then (.Difference, rest)
        else if c = dquoteChar then (.SecondDifference, rest)
        else (ch.difference_order, c :: rest)
      match stripChars dr.2 with
      | [] => .crash
      | c2 :: rest2 =>
        let ns : (Bool × List Char) :=
          if c2 = '-' then (true, stripChars rest2) else (false, c2 :: rest2)
        match ns.2 with
        | [] => .crash
        | c3 :: rest3 =>
          match (if c3 = hashChar then parseHexNum rest3 else parseDecimalNum (c3 :: rest3)) with
          | none => .fail
          | some n =>
            let num := if ns.1 then -n else n
            appendNumeric ch dr.1 num

/-- The final append of the intermittent numeric branch (lines 1132–1136):
round the value when the channel type is integer and append the
`(point index, value)` pair. -/
def appendIntermittentValue (ch : IntChan) (i : ℕ) (v : ℚ) : IntChan :=
  let value := if ch.type = .Integer then ((pythonRound v : ℤ) : ℚ) else v
  { ch with index_values := ch.index_values ++ [(i, value)] }

/-- Processing of one token for one intermittent channel at point index `i`
(lines 1092–1136): placeholder, wildcard, boolean, or sign + number with
integer rounding.  No difference coding, no whitespace/marker stripping. -/
def processIntermittentToken (ch : IntChan) (i : ℕ) (token : List Char) : RRes IntChan :=
  if token = ['?'] then .ok ch
  else if token = ['*'] then
    match ch.index_values.getLast? with
    | some iv => .ok { ch with index_values := ch.index_values ++ [(i, iv.2)] }
    | none => .fail
  else if ch.type = .Boolean then
    if token = ['T'] then .ok { ch with index_values := ch.index_values ++ [(i, 1)] }
    else if token = ['F'] then .ok { ch with index_values := ch.index_values ++ [(i, 0)] }
    else .fail
  else
    match token with
    | [] => .crash
    | c :: rest =>
      let ns : (Bool × List Char) :=
        if c = '-' then (true, stripChars rest) else (false, c :: rest)
      match ns.2 with
      | [] => .crash
      | c2 :: rest2 =>
        match (if c2 = hashChar then parseHexNum rest2 else parseDecimalNum (c2 :: rest2)) with
        | none => .fail
        | some v => .ok (appendIntermittentValue ch i (if ns.1 then -v else v))

/-- The loop over regular channels of one point: channel `j` consumes token
`j` (the caller passes exactly the first `regular count` tokens). -/
def processRegulars : List RegChan → List (List Char) → RRes (List RegChan)
  | [], _ => .ok []
  | chs, [] => .ok chs
  | ch :: chs, t :: ts =>
    match processRegularToken ch t with
    | .ok ch2 => (processRegulars chs ts).bind (fun rest => .ok (ch2 :: rest))
    | .fail => .fail
    | .crash => .crash

/-- The loop over intermittent channels of one point: `for j in
range(num_regular_channels, num_channels)` reads `tokens[j]` for every
intermittent channel, so when the point supplies fewer tokens than there are
intermittent channels, Python raises `IndexError` — modelled by `crash`. -/
def processIntermittents (i : ℕ) : List IntChan → List (List Char) → RRes (List IntChan)
  | [], _ => .ok []
  | _ :: _, [] => .crash
  | ch :: chs, t :: ts =>
    match processIntermittentToken ch i t with
    | .ok ch2 => (processIntermittents i chs ts).bind (fun rest => .ok (ch2 :: rest))
    | .fail => .fail
    | .crash => .crash

/-- One point of the trace body: strip, tokenize, check the token count
against `regular ≤ tokens ≤ regular + intermittent`, then feed the channels
positionally. -/
def parsePoint (nr nc : ℕ) (i : ℕ) (point : List Char) (rcs : List RegChan)
    (ics : List IntChan) : RRes (List RegChan × List IntChan) :=
  let tokens := tokenizePoint (stripChars point)
  if tokens.length < nr || nc < tokens.length then .fail
  else
    (processRegulars rcs (tokens.take nr)).bind (fun rcs2 =>
      (processIntermittents i ics (tokens.drop nr)).bind (fun ics2 =>
        .ok (rcs2, ics2)))

/-- The loop over the comma-separated points, with the running point index of
`enumerate`. -/
def parsePoints (nr nc : ℕ) : List (List Char) → ℕ → List RegChan → List IntChan →
    RRes (List RegChan × List IntChan)
  | [], _, rcs, ics => .ok (rcs, ics)
  | point :: rest, i, rcs, ics =>
    (parsePoint nr nc i point rcs ics).bind (fun s =>
      parsePoints nr nc rest (i + 1) s.1 s.2)

/-- `Reader.parse_trace_content`: wrap the format's channels in decode state,
split the content on commas, and decode each point.  `fail` models the
`return None, None` paths (each preceded by a warning in the source). -/
def parse_trace_content (content : String) (trace_format : TraceFormat) :
    RRes (List RegChan × List IntChan) :=
  let rcs := trace_format.regular_channels.map (fun ch => RegChan.mk ch.name ch.type [] .Explicit none)
  let ics := trace_format.intermittent_channels.map (fun ch => IntChan.mk ch.name ch.type [])
  let nr := rcs.length
  let nc := nr + trace_format.intermittent_channels.length
  parsePoints nr nc (splitOnChar ',' content.data) 0 rcs ics

/-! ## `Reader.get_trace_format` (context-inheritance lookup) -/

/-- First non-null `trace_format` on the parent chain (first `while` loop). -/
def walkTraceFormat : Context → Option TraceFormat
  | .mk _ none _ tf => tf
  | .mk _ (some p) _ tf =>
    match tf with
    | some f => some f
    | none => walkTraceFormat p

/-- First non-null `ink_source` on the parent chain (second `while` loop). -/
def walkInkSource : Context → Option InkSource
  | .mk _ none s _ => s
  | .mk _ (some p) s _ =>
    match s with
    | some v => some v
    | none => walkInkSource p

/-- `Reader.get_trace_format(trace, external_context)` with the trace
represented by its (possibly absent) own context. -/
def get_trace_format (trace_context external_context : Option Context) : TraceFormat :=
  match trace_context.orElse (fun _ => external_context) with
  | none => get_default_trace_format
  | some context =>
    match walkTraceFormat context with
    | some tf => tf
    | none =>
      match walkInkSource context with
      | some s => s.trace_format
      | none => get_default_trace_format

/-! ## XML element model and `Reader.read_trace` / `Reader.read_traces`

The XML provider is abstracted (spec §4.3) as a tree of elements.  Attribute
keys are the plain attribute names; the namespaced `xml:id` versus plain `id`
fallback of `Reader.get_id` is modelled with the key `"xml:id"`. -/

inductive Elem where
  | mk (tag : String) (attrs : List (String × String)) (text : Option String)
      (children : List Elem)

def Elem.tag : Elem → String
  | .mk t _ _ _ => t

def Elem.attrs : Elem → List (String × String)
  | .mk _ a _ _ => a

def Elem.text : Elem → Option String
  | .mk _ _ x _ => x

def Elem.children : Elem → List Elem
  | .mk _ _ _ c => c

/-- `element.get(name)`. -/
def attrOf (e : Elem) (name : String) : Option String :=
  e.attrs.lookup name

/-- `Reader.get_id`: the `xml:id` attribute, falling back to plain `id`. -/
def get_id (e : Elem) : Option String :=
  (attrOf e "xml:id").orElse (fun _ => attrOf e "id")

/-- `element.findall(tag)` over the direct children. -/
def findallChildren (e : Elem) (tag : String) : List Elem :=
  e.children.filter (fun c => c.tag = tag)

/-- `element.find(tag)`: the first direct child with the tag. -/
def findChild (e : Elem) (tag : String) : Option Elem :=
  (findallChildren e tag).head?

/-- Insert into an association list with dictionary semantics (replace the
binding if the key exists, else append). -/
def dictInsert {α : Type} (l : List (String × α)) (k : String) (v : α) : List (String × α) :=
  if l.any (fun p => p.1 = k) then l.map (fun p => if p.1 = k then (k, v) else p)
  else l ++ [(k, v)]

/-- The resolved definition tables `read_trace` consults (`rt.Definitions`
restricted to what the trace reader uses).  `nextOf` is a side table that
models the in-place `prior_trace.next = trace` assignment: it maps the id of
the prior trace to the id of its continuation. -/
structure Defs where
  contexts : List (String × Context) := []
  brushes : List (String × Brush) := []
  traces : List (String × Trace) := []
  nextOf : List (String × String) := []
deriving DecidableEq

/-- `int(s)`: optional whitespace, optional sign, one or more digits. -/
def parsePyInt (s : String) : Option ℤ :=
  let cs := stripChars s.data
  let sd : (ℤ × List Char) :=
    match cs with
    | '-' :: r => (-1, r)
    | '+' :: r => (1, r)
    | _ => (1, cs)
  if sd.2.isEmpty || !(sd.2.all isDigitChar) then none
  else some (sd.1 * (digitsVal sd.2 : ℤ))

/-- `read_trace`, contextRef block: resolve the optional context reference
against the definitions (external references only warn). -/
def traceStepContext (assume_local_refs : Bool) (e : Elem) (defs : Defs)
    (require_refs : Bool) (t : Trace) : RRes Trace :=
  match attrOf e "contextRef" with
  | none => .ok t
  | some r =>
    if is_local_id r || assume_local_refs then
      match defs.contexts.lookup (to_local_id r) with
      | some c => .ok { t with context := some c }
      | none => if require_refs then .fail else .ok t
    else .ok t

/-- `read_trace`, brushRef block. -/
def traceStepBrush (assume_local_refs : Bool) (e : Elem) (defs : Defs)
    (require_refs : Bool) (t : Trace) : RRes Trace :=
  match attrOf e "brushRef" with
  | none => .ok t
  | some r =>
    if is_local_id r || assume_local_refs then
      match defs.brushes.lookup (to_local_id r) with
      | some b => .ok { t with brush := some b }
      | none => if require_refs then .fail else .ok t
    else .ok t

/-- `read_trace`, continuation attribute (unknown literals warn and keep the
default). -/
def traceStepContinuation (e : Elem) (t : Trace) : Trace :=
  match attrOf e "continuation" with
  | some "begin" => { t with continuation := .Begin }
  | some "middle" => { t with continuation := .Middle }
  | some "end" => { t with continuation := .End }
  | _ => t

/-- `read_trace`, priorRef block for continuation `middle`/`end`: require the
attribute, require it local (or `assume_local_refs`), then link the prior
trace's `next` to this trace (modelled through `Defs.nextOf`). -/
def traceStepPrior (assume_local_refs : Bool) (e : Elem) (defs : Defs)
    (require_refs : Bool) (t : Trace) : RRes (Trace × Defs) :=
  if t.continuation = .Middle || t.continuation = .End then
    match attrOf e "priorRef" with
    | none => .fail
    | some pr =>
      if pr = "" then .fail
      else if !(is_local_id pr) && !assume_local_refs then .fail
      else
        if (defs.traces.lookup (to_local_id pr)).isSome then
          .ok (t, { defs with
                      nextOf := dictInsert defs.nextOf (to_local_id pr) ((get_id e).getD "") })
        else if require_refs then .fail
        else .ok (t, defs)
  else .ok (t, defs)

/-- `read_trace`, trace body: when the element has text, decode it under the
effective trace format and move the channel arrays into the trace. -/
def traceStepText (e : Elem) (external_context : Option Context) (t : Trace) : RRes Trace :=
  match e.text with
  | none => .ok t
  | some content =>
    match parse_trace_content content (get_trace_format t.context external_context) with
    | .ok s =>
      .ok { t with
              channels := s.1.foldl (fun m ch => dictInsert m ch.name ch.values) t.channels,
              intermittent_channels :=
                s.2.foldl (fun m ch => dictInsert m ch.name ch.index_values)
                  t.intermittent_channels }
    | .fail => .fail
    | .crash => .crash

/-- `read_trace`, id attribute (the missing-id case only warns). -/
def traceStepId (e : Elem) (t : Trace) : Trace :=
  match get_id e with
  | some i => if i ≠ "" then { t with id := i } else t
  | none => t

/-- `read_trace`, type attribute. -/
def traceStepType (e : Elem) (t : Trace) : Trace :=
  match attrOf e "type" with
  | some "penDown" => { t with type := .PenDown }
  | some "penUp" => { t with type := .PenUp }
  | some "indeterminate" => { t with type := .Indeterminate }
  | _ => t

/-- `read_trace`, duration and timeOffset attributes (parse failures are
ignored). -/
def traceStepTimes (e : Elem) (t : Trace) : Trace :=
  let t1 :=
    match attrOf e "duration" with
    | some s => if s ≠ "" then
        match parsePyInt s with
        | some v => { t with duration := some v }
        | none => t
      else t
    | none => t
  match attrOf e "timeOffset" with
  | some s => if s ≠ "" then
      match parsePyInt s with
      | some v => { t1 with time_offset := some v }
      | none => t1
    else t1
  | none => t1

/-- `Reader.read_trace`: the blocks above in source order.  A `fail` models
`return None` (after a warning); the updated `Defs` carries the `next` link
side effect. -/
def read_trace (assume_local_refs : Bool) (e : Elem) (defs : Defs)
    (context : Option Context) (require_refs : Bool) : RRes (Trace × Defs) :=
  (traceStepContext assume_local_refs e defs require_refs {}).bind (fun t1 =>
    (traceStepBrush assume_local_refs e defs require_refs t1).bind (fun t2 =>
      (traceStepPrior assume_local_refs e defs require_refs
          (traceStepContinuation e t2)).bind (fun td =>
        (traceStepText e context td.1).bind (fun t4 =>
          .ok (traceStepTimes e (traceStepType e (traceStepId e t4)), td.2)))))

/-- `Reader.read_traces` restricted to `<trace>` children (the traceGroup and
traceView branches are outside the scope of the claims; children with other
tags are skipped).  A failed trace read warns and is *not* appended; a trace
with an id is registered in `definitions.traces`. -/
def read_traces (assume_local_refs : Bool) : List Elem → Defs → Option Context →
    RRes (List Trace × Defs)
  | [], defs, _ => .ok ([], defs)
  | e :: rest, defs, context =>
    if e.tag = "trace" then
      match read_trace assume_local_refs e defs context true with
      | .ok td =>
        let defs2 :=
          if td.1.id ≠ "" then { td.2 with traces := dictInsert td.2.traces td.1.id td.1 }
          else td.2
        (read_traces assume_local_refs rest defs2 context).bind (fun r =>
          .ok (td.1 :: r.1, r.2))
      | .fail => read_traces assume_local_refs rest defs context
      | .crash => .crash
    else read_traces assume_local_refs rest defs context

/-! ## `Reader.read_ink_source`: channel properties (claim C8) -/

/-- `rt.ChannelProperty`: content of a `<channelProperty>` element. -/
structure ChannelProperty where
  channel : String
  name : String
  value : String
  units : Option String
deriving DecidableEq

/-- `Reader.read_channel_property`: require `channel`, `name`, `value`;
`units` is optional. -/
def read_channel_property (e : Elem) : Option ChannelProperty :=
  match attrOf e "channel" with
  | none => none
  | some channel =>
    match attrOf e "name" with
    | none => none
    | some name =>
      match attrOf e "value" with
      | none => none
      | some value => some ⟨channel, name, value, attrOf e "units"⟩

/-- The channel-property collection block of `read_ink_source` (lines
200–210): find the `channelProperties` wrapper; then — as written in the
source — `find` (not `findall`) the first `channelProperty` child and iterate
over *its* children.  When the wrapper exists but has no `channelProperty`
child, `find` returns `None` and the `for` loop raises `TypeError`
(`crash`). -/
def collectChannelProperties (ink_source_elem : Elem) : RRes (List ChannelProperty) :=
  match findChild ink_source_elem "channelProperties" with
  | none => .ok []
  | some wrapper =>
    match findChild wrapper "channelProperty" with
    | none => .crash
    | some cp => .ok (cp.children.filterMap read_channel_property)

/-- The grouping dictionary of `read_ink_source` (channel name → properties in
document order). -/
def groupChannelProperties (props : List ChannelProperty) (channel_name : String) :
    List ChannelProperty :=
  props.filter (fun p => p.channel = channel_name)

/-- The assignment loop of `read_ink_source` (lines 212–217): each channel of
the trace format (regular then intermittent) receives the properties grouped
under its exact name. -/
def attachChannelProperties (tf : TraceFormat) (props : List ChannelProperty) : TraceFormat :=
  let attach := fun (ch : Channel) =>
    let newProps := (groupChannelProperties props ch.name).foldl
      (fun m p => dictInsert m p.name (PropertyV.mk p.value p.units)) ch.properties
    { ch with properties := newProps }
  { tf with regular_channels := tf.regular_channels.map attach,
            intermittent_channels := tf.intermittent_channels.map attach }

/-- Modelled from the spec: the behaviour claim C8 describes — read all
`channelProperty` children of the wrapper and attach them per channel.  Used
only to exhibit the divergence from `collectChannelProperties`. -/
def collectChannelPropertiesSpec (ink_source_elem : Elem) : RRes (List ChannelProperty) :=
  match findChild ink_source_elem "channelProperties" with
  | none => .ok []
  | some wrapper =>
    .ok ((findallChildren wrapper "channelProperty").filterMap read_channel_property)

/-! ## Top-level `<context>` registration (claim C9)

`Reader.read_definitions`, lines 132–139: for every `<context>` element that
is a direct child of the root, the context is stored in
`definitions.contexts` only when its id is *empty* (the accompanying source
comment says contexts without ids are ignored).  Contexts are represented by
their envelope id here; the stored payload is irrelevant to the claim. -/

def registerTopLevelContexts (context_ids : List String)
    (contexts : List (String × String)) : List (String × String) :=
  context_ids.foldl
    (fun table cid => if cid.length = 0 then dictInsert table cid cid else table)
    contexts

/-! ## references.py: brush parent resolution (claim C4)

`resolve_brush_parent_references` works on the dictionary id → envelope; the
only envelope data it uses are the id and `parent_ref`, so the model takes an
association list of `(id, parent_ref)` pairs. -/

/-- `parent_ref` of a brush id (`brushes[id].parent_ref`). -/
def prefOf (brushes : List (String × String)) (id : String) : String :=
  (brushes.lookup id).getD ""

/-- A brush is seeded as resolved when its reference is empty or the
distinguished `#DefaultBrush`. -/
def isSeedRef (p : String) : Bool :=
  p = "" || p = "#DefaultBrush"

/-- One round of the fixed-point loop: the backlog ids whose parent id is
already resolved. -/
def resolveStage (pref : String → String) (resolved backlog : List String) : List String :=
  backlog.filter (fun id => resolved.contains (to_local_id (pref id)))

/-- The `while` loop of `resolve_brush_parent_references`: move each stage
into the resolved set until no progress; returns (resolved, backlog).  The
fuel bounds the rounds; `backlog.length` rounds always suffice because every
executed round removes at least one backlog element. -/
def resolveLoop (pref : String → String) : ℕ → List String → List String →
    List String × List String
  | 0, resolved, backlog => (resolved, backlog)
  | fuel + 1, resolved, backlog =>
    if backlog.isEmpty then (resolved, backlog)
    else
      let stage := resolveStage pref resolved backlog
      if stage.isEmpty then (resolved, backlog)
      else resolveLoop pref fuel (resolved ++ stage) (backlog.filter (fun id => !stage.contains id))

/-- `resolve_brush_parent_references`: seed the terminal brushes, run the
fixed point, and return the ids that could not be resolved (cyclic or
dangling). -/
def resolve_brush_parent_references (brushes : List (String × String)) : List String :=
  let resolved := (brushes.filter (fun b => isSeedRef b.2)).map (fun b => b.1)
  let backlog := (brushes.filter (fun b => !isSeedRef b.2)).map (fun b => b.1)
  (resolveLoop (prefOf brushes) backlog.length resolved backlog).2

/-- The brush part of `resolve_references`: delete every ignored id from the
definitions and, when any were ignored, emit the single consolidated warning
naming them. -/
def applyBrushResolution (brushes : List (String × String)) :
    List (String × String) × Option (List String) :=
  let ignored := resolve_brush_parent_references brushes
  (brushes.filter (fun b => !ignored.contains b.1),
   if ignored.isEmpty then none else some ignored)

/-- The brushes the fixed point can resolve: either a terminal brush (empty
or `#DefaultBrush` reference) or a brush whose parent reference leads to a
resolvable brush.  This is the declarative counterpart of the loop. -/
inductive BrushResolvable (brushes : List (String × String)) : String → Prop where
  | seed : ∀ id p, (id, p) ∈ brushes → isSeedRef p = true → BrushResolvable brushes id
  | step : ∀ id p, (id, p) ∈ brushes → isSeedRef p = false →
      BrushResolvable brushes (to_local_id p) → BrushResolvable brushes id

/-- The final parent pointer the resolver installs: seeds keep no parent, a
resolved brush points at `to_local_id parent_ref`. -/
def brushParentOf (brushes : List (String × String)) (id : String) : Option String :=
  if isSeedRef (prefOf brushes id) then none else some (to_local_id (prefOf brushes id))

/-- The parent chain starting at `id` reaches a root within `n` steps. -/
def brushChainEnds (brushes : List (String × String)) : ℕ → String → Bool
  | 0, _ => false
  | n + 1, id =>
    match brushParentOf brushes id with
    | none => true
    | some p => brushChainEnds brushes n p

/-! ## Stream-level view of regular-channel decoding (claims C1, C5, C7)

A numeric token, after tokenization and number parsing, amounts to an
optional difference marker plus a parsed number.  `decodeRegularStream` runs
the numeric branch of the regular-channel loop (marker resolution, lines
1022–1032, plus `appendNumeric`) over such a stream on one fresh channel. -/

/-- Decode a stream of (marker, number) tokens on a channel, as the regular
loop of `parse_trace_content` does across the points of a trace body. -/
def decodeStreamGo (ch : RegChan) : List (Option DifferenceOrder × ℚ) → RRes (List ℚ)
  | [] => .ok ch.values
  | (m, q) :: rest =>
    match appendNumeric ch (m.getD ch.difference_order) q with
    | .ok ch2 => decodeStreamGo ch2 rest
    | .fail => .fail
    | .crash => .crash

/-- Decoding a token stream on one fresh regular channel of the given type. -/
def decodeRegularStream (ty : ChannelType) (toks : List (Option DifferenceOrder × ℚ)) :
    RRes (List ℚ) :=
  decodeStreamGo (RegChan.mk "X" ty [] .Explicit none) toks

/-- Partial sums `x, x+d1, x+d1+d2, …` of a difference stream. -/
def sumsFrom (x : ℚ) : List ℚ → List ℚ
  | [] => []
  | d :: ds => (x + d) :: sumsFrom (x + d) ds

/-! ## Spec-side effective trace format (claim C2) -/

/-- The parent chain of a context, starting at the context itself. -/
def contextChain : Context → List Context
  | .mk i none s f => [.mk i none s f]
  | .mk i (some p) s f => .mk i (some p) s f :: contextChain p

/-- Modelled from the spec's words for claim C2: take the trace's context if
set, else the ambient one; with no context return the default trace format;
otherwise return the first non-null trace format on the parent chain, else
the trace format of the first non-null ink source on the same chain, else
the default. -/
def effectiveTraceFormatSpec (trace_context ambient_context : Option Context) : TraceFormat :=
  match (if trace_context.isSome then trace_context else ambient_context) with
  | none => get_default_trace_format
  | some c =>
    match (contextChain c).findSome? Context.trace_format with
    | some tf => tf
    | none =>
      match (contextChain c).findSome? Context.ink_source with
      | some s => s.trace_format
      | none => get_default_trace_format

/-- Integer channels round with Python's `round`; other channel types keep
the value. -/
def roundIfInteger (ty : ChannelType) (q : ℚ) : ℚ :=
  if ty = .Integer then ((pythonRound q : ℤ) : ℚ) else q

/-!
# Theorems

Helper lemmas first, then one theorem (plus witness / counterexample where
required) per claim.
-/

theorem RRes.bind_ok_iff {α β : Type} (x : RRes α) (f : α → RRes β) (b : β) :
    x.bind f = .ok b ↔ ∃ a, x = .ok a ∧ f a = .ok b := by
  cases x <;> simp [RRes.bind]

/-! ### Claim C9: top-level context registration -/

/-- C9: the claim says a top-level `<context>` carrying an id is registered
in the contexts table under its id while id-less ones are ignored.  The code
(lines 132–139 of `reading.py`) does the opposite of its own comment: the
body of `if len(context.id) == 0:` *stores* the context, so an id-bearing
top-level context is never registered and an id-less one is stored under the
empty key.  Evaluated at the failing input: one top-level context with id
`ctx1` (left), one without an id (right). -/
theorem c9_top_level_context_registration_inverted :
    registerTopLevelContexts ["ctx1"] [] = [] ∧
    registerTopLevelContexts [""] [] = [("", "")] := by
  constructor <;> rfl

/-! ### Claim C8: channel properties of an ink source -/

/-- The C8 failing input: an inkSource whose `channelProperties` wrapper
holds one `channelProperty` child for channel `X`. -/
def c8InkSourceElem : Elem :=
  .mk "inkSource" [("xml:id", "src0")] none
    [.mk "channelProperties" [] none
      [.mk "channelProperty" [("channel", "X"), ("name", "resolution"), ("value", "1000")]
        none []]]

/-- An inkSource whose wrapper is present but empty. -/
def c8EmptyWrapperElem : Elem :=
  .mk "inkSource" [("xml:id", "src1")] none [.mk "channelProperties" [] none []]

/-- C8: the claim (and spec §4.6) say every `channelProperty` child of the
wrapper is grouped by channel and attached to the matching channel.  The code
uses `find` instead of `findall` (line 203) and then iterates over the
children of the *first* `channelProperty` element, so: on the failing input
no property at all is collected (and hence nothing is attached to channel
`X`, against the claimed behaviour shown by `collectChannelPropertiesSpec`),
and on a wrapper with no `channelProperty` child the loop iterates over
`None` and raises `TypeError`. -/
theorem c8_channel_properties_find_vs_findall :
    collectChannelProperties c8InkSourceElem = .ok [] ∧
    collectChannelPropertiesSpec c8InkSourceElem =
      .ok [⟨"X", "resolution", "1000", none⟩] ∧
    attachChannelProperties { regular_channels := [{ name := "X" }] } [] =
      { regular_channels := [{ name := "X" }] } ∧
    collectChannelProperties c8EmptyWrapperElem = .crash := by
  refine ⟨rfl, rfl, rfl, rfl⟩

/-! ### Claim C6: the point tokenizer versus the stated grammar -/

theorem specMatchExponent_false (cs : List Char) :
    specMatchExponent false cs = matchExponent1 cs := by
  unfold specMatchExponent matchExponent1
  cases cs with
  | nil => rfl
  | cons e rest =>
    by_cases he : e = 'e' || e = 'E'
    · simp only [he, if_true]
      cases rest with
      | nil => rfl
      | cons s r2 =>
        by_cases hs : s = '+' || s = '-'
        · simp only [hs, if_true]
          cases r2 with
          | nil => rfl
          | cons d r3 =>
            by_cases hd : isDigitChar d <;> simp [hd]
        · simp only [hs, if_false]
          by_cases hds : isDigitChar s <;> simp [hds]
    · simp [he]

theorem specMatchNumeric_false (cs : List Char) :
    specMatchNumeric false cs = matchNumeric cs := by
  unfold specMatchNumeric matchNumeric
  simp only [specMatchExponent_false]

theorem specMatchToken_false (cs : List Char) :
    specMatchToken false cs = matchToken cs := by
  unfold specMatchToken matchToken
  simp only [specMatchNumeric_false]

theorem specTokenizeGo_false (fuel : ℕ) :
    ∀ cs, specTokenizeGo false fuel cs = tokenizeGo fuel cs := by
  induction fuel with
  | zero => intro cs; rfl
  | succ n ih =>
    intro cs
    cases cs with
    | nil => rfl
    | cons c rest =>
      simp only [specTokenizeGo, tokenizeGo, specMatchToken_false]
      cases h : matchToken (c :: rest) with
      | none => simp [ih]
      | some tr => simp [ih]

/-- C6 (amended): the tokenizer produces exactly the tokens of the stated
grammar *with the exponent restricted to a single digit* — the source regex
has `[eE][+-]?\d`, not `[eE][+-]?\d+`. -/
theorem c6_tokenizer_single_digit_exponent_grammar (cs : List Char) :
    tokenizePoint cs = specTokenizePoint false cs := by
  unfold tokenizePoint specTokenizePoint
  exact (specTokenizeGo_false cs.length cs).symm

/-- C6 counterexample: on the point text `1e10` the claimed grammar (one or
more exponent digits, `specTokenizePoint true`) produces the single token
`1e10`, while the code's tokenizer splits it into `1e1` and `0`. -/
theorem c6_counterexample :
    tokenizePoint "1e10".data = [['1', 'e', '1'], ['0']] ∧
    specTokenizePoint true "1e10".data = [['1', 'e', '1', '0']] ∧
    tokenizePoint "1e10".data ≠ specTokenizePoint true "1e10".data := by
  refine ⟨rfl, rfl, by decide⟩

/-! ### Shared characterization of `appendNumeric` -/

theorem appendNumeric_explicit (ch : RegChan) (num : ℚ) :
    appendNumeric ch .Explicit num =
      .ok { ch with
              values := ch.values ++ [roundIfInteger ch.type num],
              last_difference := none,
              difference_order := .Explicit } := rfl

theorem appendNumeric_difference_empty (ch : RegChan) (num : ℚ) (h : ch.values = []) :
    appendNumeric ch .Difference num = .fail := by
  simp [appendNumeric, h]

theorem appendNumeric_difference (ch : RegChan) (num last : ℚ)
    (h : ch.values.getLast? = some last) :
    appendNumeric ch .Difference num =
      .ok { ch with
              values := ch.values ++ [roundIfInteger ch.type (last + num)],
              last_difference := some num,
              difference_order := .Difference } := by
  simp only [appendNumeric, h, roundIfInteger]

theorem appendNumeric_second_nan (ch : RegChan) (num : ℚ) (h : ch.last_difference = none) :
    appendNumeric ch .SecondDifference num = .fail := by
  simp [appendNumeric, h]

theorem appendNumeric_second (ch : RegChan) (num d last : ℚ)
    (hd : ch.last_difference = some d) (h : ch.values.getLast? = some last) :
    appendNumeric ch .SecondDifference num =
      .ok { ch with
              values := ch.values ++ [roundIfInteger ch.type (last + d + num)],
              last_difference := some (d + num),
              difference_order := .SecondDifference } := by
  simp only [appendNumeric, hd, h, roundIfInteger]

/-! ### Concrete rounding values -/

theorem pythonRound_three_halves : pythonRound (3 / 2) = 2 := by
  unfold pythonRound
  norm_num

theorem pythonRound_five_halves : pythonRound (5 / 2) = 2 := by
  unfold pythonRound
  norm_num

theorem roundHalfAwayFromZero_five_halves : roundHalfAwayFromZero (5 / 2) = 3 := by
  unfold roundHalfAwayFromZero
  norm_num

/-! ### Claim C1: numeric token decoding under the effective difference order -/

/-- C1 (amended): for a non-boolean regular channel, a numeric token is
decoded under the effective difference order — the explicit marker when
present, otherwise the channel's current order: under `Explicit` the
appended value is the parsed number (rounded when the channel type is
integer) and the carry resets to NaN; under `Difference` the value list must
be non-empty, the appended value is the previous value plus the number
(rounded likewise) and the carry becomes the number; under
`SecondDifference` the carry must be finite, the appended value is the
previous value plus carry plus number (rounded likewise) and the carry grows
by the number; and the channel's current order becomes the effective order.
The claim as frozen omits the integer rounding (see `c1_counterexample`). -/
theorem c1_effective_difference_order_decoding (ch : RegChan)
    (marker : Option DifferenceOrder) (num : ℚ) (hb : ch.type ≠ .Boolean) :
    (marker.getD ch.difference_order = .Explicit →
      appendNumeric ch (marker.getD ch.difference_order) num =
        .ok { ch with
                values := ch.values ++ [roundIfInteger ch.type num],
                last_difference := none,
                difference_order := .Explicit }) ∧
    (marker.getD ch.difference_order = .Difference →
      (ch.values = [] → appendNumeric ch (marker.getD ch.difference_order) num = .fail) ∧
      (∀ last, ch.values.getLast? = some last →
        appendNumeric ch (marker.getD ch.difference_order) num =
          .ok { ch with
                  values := ch.values ++ [roundIfInteger ch.type (last + num)],
                  last_difference := some num,
                  difference_order := .Difference })) ∧
    (marker.getD ch.difference_order = .SecondDifference →
      (ch.last_difference = none →
        appendNumeric ch (marker.getD ch.difference_order) num = .fail) ∧
      (∀ d last, ch.last_difference = some d → ch.values.getLast? = some last →
        appendNumeric ch (marker.getD ch.difference_order) num =
          .ok { ch with
                  values := ch.values ++ [roundIfInteger ch.type (last + d + num)],
                  last_difference := some (d + num),
                  difference_order := .SecondDifference })) := by
  refine ⟨fun he => ?_, fun he => ⟨fun h0 => ?_, fun last hl => ?_⟩,
          fun he => ⟨fun h0 => ?_, fun d last hd hl => ?_⟩⟩ <;> rw [he]
  · exact appendNumeric_explicit ch num
  · exact appendNumeric_difference_empty ch num h0
  · exact appendNumeric_difference ch num last hl
  · exact appendNumeric_second_nan ch num h0
  · exact appendNumeric_second ch num d last hd hl

/-- Witness for C1 at a concrete input: a fresh decimal channel, an explicit
marker and the number 1. -/
theorem c1_witness :
    appendNumeric (RegChan.mk "X" .Decimal [] .Explicit none) .Explicit 1 =
      .ok (RegChan.mk "X" .Decimal [1] .Explicit none) := by
  have h := c1_effective_difference_order_decoding
    (RegChan.mk "X" .Decimal [] .Explicit none) (some .Explicit) 1 (by decide)
  simpa [roundIfInteger] using h.1 rfl

/-- C1 counterexample: on an integer channel in explicit mode the appended
value is *not* the parsed number — decoding 3/2 appends 2. -/
theorem c1_counterexample :
    appendNumeric (RegChan.mk "P" .Integer [] .Explicit none) .Explicit (3 / 2) =
      .ok (RegChan.mk "P" .Integer [2] .Explicit none) ∧ (2 : ℚ) ≠ 3 / 2 := by
  constructor
  · rw [appendNumeric_explicit]
    simp [roundIfInteger, pythonRound_three_halves]
  · norm_num

/-! ### Claim C5: rounding mode of integer channels -/

theorem pythonRound_nearest_tie_even (q : ℚ) :
    |q - (pythonRound q : ℚ)| ≤ 1 / 2 ∧
    (|q - (pythonRound q : ℚ)| = 1 / 2 → Even (pythonRound q)) := by
  have h0 : (0 : ℚ) ≤ q - (⌊q⌋ : ℚ) := sub_nonneg.mpr (Int.floor_le q)
  have h1 : q - (⌊q⌋ : ℚ) < 1 := by
    have := Int.lt_floor_add_one q
    push_cast at this ⊢
    linarith
  unfold pythonRound
  by_cases hlt : q - (⌊q⌋ : ℚ) < 1 / 2
  · simp only [hlt, if_true]
    rw [abs_of_nonneg h0]
    exact ⟨by linarith, fun habs => absurd habs (by linarith)⟩
  · simp only [hlt, if_false]
    by_cases hgt : 1 / 2 < q - (⌊q⌋ : ℚ)
    · simp only [hgt, if_true]
      have habs : |q - ((⌊q⌋ + 1 : ℤ) : ℚ)| = 1 - (q - (⌊q⌋ : ℚ)) := by
        push_cast
        rw [abs_of_nonpos (by linarith)]
        ring
      rw [habs]
      exact ⟨by linarith, fun h => absurd h (by intro hh; linarith)⟩
    · have heq : q - (⌊q⌋ : ℚ) = 1 / 2 := le_antisymm (not_lt.mp hgt) (not_lt.mp hlt)
      simp only [hgt, if_false]
      by_cases hev : Even ⌊q⌋
      · rw [if_pos hev, abs_of_nonneg h0, heq]
        exact ⟨le_refl _, fun _ => hev⟩
      · rw [if_neg hev]
        have habs : |q - ((⌊q⌋ + 1 : ℤ) : ℚ)| = 1 / 2 := by
          push_cast
          rw [abs_of_nonpos (by linarith)]
          linarith
        rw [habs]
        refine ⟨le_refl _, fun _ => ?_⟩
        exact Int.even_add_one.mpr hev

/-- C5 (amended): every value appended to an integer-typed channel (regular —
`Explicit` and `Difference` modes shown — or intermittent) is `pythonRound`
of the raw value, and `pythonRound` rounds to a *nearest* integer with exact
halves going to the *even* neighbour, not away from zero as the claim states
(see `c5_counterexample`). -/
theorem c5_integer_rounding_is_half_to_even (ch : RegChan) (ic : IntChan) (i : ℕ)
    (q last : ℚ) (hch : ch.type = .Integer) (hic : ic.type = .Integer) :
    appendNumeric ch .Explicit q =
      .ok { ch with
              values := ch.values ++ [((pythonRound q : ℤ) : ℚ)],
              last_difference := none,
              difference_order := .Explicit } ∧
    (ch.values.getLast? = some last →
      appendNumeric ch .Difference q =
        .ok { ch with
                values := ch.values ++ [((pythonRound (last + q) : ℤ) : ℚ)],
                last_difference := some q,
                difference_order := .Difference }) ∧
    appendIntermittentValue ic i q =
      { ic with index_values := ic.index_values ++ [(i, ((pythonRound q : ℤ) : ℚ))] } ∧
    |q - (pythonRound q : ℚ)| ≤ 1 / 2 ∧
    (|q - (pythonRound q : ℚ)| = 1 / 2 → Even (pythonRound q)) := by
  refine ⟨?_, fun hl => ?_, ?_, (pythonRound_nearest_tie_even q).1,
          (pythonRound_nearest_tie_even q).2⟩
  · rw [appendNumeric_explicit]
    rw [roundIfInteger, if_pos hch]
  · rw [appendNumeric_difference ch q last hl]
    rw [roundIfInteger, if_pos hch]
  · rw [appendIntermittentValue, if_pos hic]

/-- Witness for C5 at a concrete input: an integer regular channel holding
the value 0, an integer intermittent channel, point index 0, value 5/2. -/
theorem c5_witness :
    appendNumeric (RegChan.mk "X" .Integer [0] .Explicit none) .Explicit (5 / 2) =
      .ok { RegChan.mk "X" .Integer [0] .Explicit none with
              values := [0] ++ [((pythonRound (5 / 2) : ℤ) : ℚ)],
              last_difference := none,
              difference_order := .Explicit } ∧
    |(5 / 2 : ℚ) - (pythonRound (5 / 2 : ℚ) : ℚ)| ≤ 1 / 2 := by
  have h := c5_integer_rounding_is_half_to_even
    (RegChan.mk "X" .Integer [0] .Explicit none) (IntChan.mk "F" .Integer []) 0
    (5 / 2) 0 rfl rfl
  exact ⟨h.1, h.2.2.2.1⟩

/-- C5 counterexample: decoding the explicit value 5/2 on an integer channel
appends 2 (round-half-to-even), while the half-away-from-zero mode the claim
asserts yields 3. -/
theorem c5_counterexample :
    appendNumeric (RegChan.mk "P" .Integer [] .Explicit none) .Explicit (5 / 2) =
      .ok (RegChan.mk "P" .Integer [2] .Explicit none) ∧
    roundHalfAwayFromZero (5 / 2) = 3 ∧ (2 : ℤ) ≠ 3 := by
  refine ⟨?_, roundHalfAwayFromZero_five_halves, by decide⟩
  rw [appendNumeric_explicit]
  simp [roundIfInteger, pythonRound_five_halves]

/-! ### Claim C7: round trip of first-difference coding -/

/-- On a channel that is not integer-typed, a run of explicitly
first-difference-marked tokens appends exactly the partial sums continuing
from the channel's last value. -/
theorem decodeStreamGo_diff (ds : List ℚ) :
    ∀ (ch : RegChan) (last : ℚ), ch.type ≠ .Integer → ch.values.getLast? = some last →
      decodeStreamGo ch (ds.map (fun d => (some .Difference, d))) =
        .ok (ch.values ++ sumsFrom last ds) := by
  induction ds with
  | nil => intro ch last _ _; simp [decodeStreamGo, sumsFrom]
  | cons d ds ih =>
    intro ch last hty hlast
    have happ := appendNumeric_difference ch d last hlast
    rw [roundIfInteger, if_neg hty] at happ
    simp only [List.map_cons, decodeStreamGo, Option.getD_some, happ]
    have h2 := ih { ch with values := ch.values ++ [last + d],
                            last_difference := some d,
                            difference_order := .Difference }
      (last + d) hty (by simp)
    rw [h2]
    simp [sumsFrom, List.append_assoc]

/-- On a channel that is not integer-typed and currently in explicit mode,
a run of marker-less tokens appends exactly the token values. -/
theorem decodeStreamGo_explicit (vs : List ℚ) :
    ∀ (ch : RegChan), ch.type ≠ .Integer → ch.difference_order = .Explicit →
      decodeStreamGo ch (vs.map (fun v => ((none : Option DifferenceOrder), v))) =
        .ok (ch.values ++ vs) := by
  induction vs with
  | nil => intro ch _ _; simp [decodeStreamGo]
  | cons v vs ih =>
    intro ch hty hord
    have happ := appendNumeric_explicit ch v
    rw [roundIfInteger, if_neg hty] at happ
    simp only [List.map_cons, decodeStreamGo, Option.getD_none, hord, happ]
    have h2 := ih { ch with values := ch.values ++ [v],
                            last_difference := none,
                            difference_order := .Explicit } hty rfl
    rw [h2]
    simp [List.append_assoc]

/-- C7 (amended): on a *decimal* channel, decoding `x0, 'd1, 'd2, …` and
decoding the explicit stream `x0, x0+d1, x0+d1+d2, …` both yield exactly the
partial sums.  For integer channels the two decodings differ in general,
because rounding is applied to every intermediate value (see
`c7_counterexample`), so the claim's "rounded equivalently" clause fails. -/
theorem c7_first_difference_round_trip (x0 : ℚ) (ds : List ℚ) :
    decodeRegularStream .Decimal
        ((none, x0) :: ds.map (fun d => (some .Difference, d))) =
      .ok (x0 :: sumsFrom x0 ds) ∧
    decodeRegularStream .Decimal
        ((none, x0) :: (sumsFrom x0 ds).map (fun v => ((none : Option DifferenceOrder), v))) =
      .ok (x0 :: sumsFrom x0 ds) := by
  have hty : (ChannelType.Decimal) ≠ ChannelType.Integer := by decide
  have hfirst : appendNumeric (RegChan.mk "X" .Decimal [] .Explicit none) .Explicit x0 =
      .ok (RegChan.mk "X" .Decimal [x0] .Explicit none) := by
    rw [appendNumeric_explicit, roundIfInteger, if_neg hty]
    rfl
  constructor
  · show decodeStreamGo _ _ = _
    simp only [decodeStreamGo, Option.getD_none, hfirst]
    rw [decodeStreamGo_diff ds (RegChan.mk "X" .Decimal [x0] .Explicit none) x0 hty rfl]
    rfl
  · show decodeStreamGo _ _ = _
    simp only [decodeStreamGo, Option.getD_none, hfirst]
    rw [decodeStreamGo_explicit (sumsFrom x0 ds)
      (RegChan.mk "X" .Decimal [x0] .Explicit none) hty rfl]
    rfl

/-- C7 counterexample: on an integer channel, decoding `0.5, '1` yields
`[0, 1]` while the explicit form `0.5, 1.5` yields `[0, 2]`: the two are not
"rounded equivalently". -/
theorem c7_counterexample :
    decodeRegularStream .Integer [(none, 1 / 2), (some .Difference, 1)] = .ok [0, 1] ∧
    decodeRegularStream .Integer
        [((none : Option DifferenceOrder), 1 / 2), (none, 3 / 2)] = .ok [0, 2] ∧
    ([0, 1] : List ℚ) ≠ [0, 2] := by
  refine ⟨?_, ?_, by norm_num⟩
  · show decodeStreamGo _ _ = _
    simp [decodeStreamGo, appendNumeric, roundIfInteger]
    norm_num [pythonRound]
  · show decodeStreamGo _ _ = _
    simp [decodeStreamGo, appendNumeric, roundIfInteger]
    norm_num [pythonRound]

/-! ### Claim C2: effective trace format lookup -/

theorem walkTraceFormat_eq :
    ∀ c : Context, walkTraceFormat c = (contextChain c).findSome? Context.trace_format
  | .mk i none s f => by
    simp [walkTraceFormat, contextChain, List.findSome?_cons, Context.trace_format]
    cases f <;> simp
  | .mk i (some p) s f => by
    have ih := walkTraceFormat_eq p
    simp only [walkTraceFormat, contextChain, List.findSome?_cons, Context.trace_format]
    cases f <;> simp [ih]

theorem walkInkSource_eq :
    ∀ c : Context, walkInkSource c = (contextChain c).findSome? Context.ink_source
  | .mk i none s f => by
    simp [walkInkSource, contextChain, List.findSome?_cons, Context.ink_source]
    cases s <;> simp
  | .mk i (some p) s f => by
    have ih := walkInkSource_eq p
    simp only [walkInkSource, contextChain, List.findSome?_cons, Context.ink_source]
    cases s <;> simp [ih]

/-- C2: the effective trace format of a trace is chosen exactly as the claim
says: the trace's own context if set, else the ambient context; with neither,
the default trace format (whose regular channels are `X` then `Y`, both of
type decimal); otherwise the first non-null trace format on the chosen
context's parent chain; failing that, the trace format of the first non-null
ink source on the same chain; failing that, the default. -/
theorem c2_effective_trace_format :
    (∀ trace_context ambient_context : Option Context,
      get_trace_format trace_context ambient_context =
        effectiveTraceFormatSpec trace_context ambient_context) ∧
    get_default_trace_format.regular_channels.map Channel.name = ["X", "Y"] ∧
    get_default_trace_format.regular_channels.map Channel.type = [.Decimal, .Decimal] := by
  refine ⟨fun tc ac => ?_, rfl, rfl⟩
  unfold get_trace_format effectiveTraceFormatSpec
  have horelse : tc.orElse (fun _ => ac) = if tc.isSome then tc else ac := by
    cases tc <;> simp [Option.orElse]
  rw [horelse]
  cases h : (if tc.isSome then tc else ac) with
  | none => rfl
  | some c => simp only [walkTraceFormat_eq, walkInkSource_eq]

/-! ### Reading steps: preservation lemmas -/

theorem traceStepContext_channels (a : Bool) (e : Elem) (d : Defs) (r : Bool) (t t' : Trace)
    (h : traceStepContext a e d r t = .ok t') :
    t'.channels = t.channels ∧ t'.intermittent_channels = t.intermittent_channels := by
  unfold traceStepContext at h
  repeat' split at h
  all_goals first | (cases h; simp) | simp_all

theorem traceStepBrush_ok (a : Bool) (e : Elem) (d : Defs) (r : Bool) (t t' : Trace)
    (h : traceStepBrush a e d r t = .ok t') :
    t'.context = t.context ∧ t'.channels = t.channels ∧
    t'.intermittent_channels = t.intermittent_channels := by
  unfold traceStepBrush at h
  repeat' split at h
  all_goals first | (cases h; simp) | simp_all

theorem traceStepContinuation_ok (e : Elem) (t : Trace) :
    (traceStepContinuation e t).context = t.context ∧
    (traceStepContinuation e t).channels = t.channels ∧
    (traceStepContinuation e t).intermittent_channels = t.intermittent_channels := by
  unfold traceStepContinuation
  repeat' split
  all_goals simp

theorem traceStepPrior_ok (a : Bool) (e : Elem) (d : Defs) (r : Bool) (t : Trace)
    (td : Trace × Defs) (h : traceStepPrior a e d r t = .ok td) : td.1 = t := by
  unfold traceStepPrior at h
  repeat' split at h
  all_goals first | (cases h; simp) | simp_all

theorem traceStepId_preserves (e : Elem) (t : Trace) :
    (traceStepId e t).channels = t.channels ∧
    (traceStepId e t).intermittent_channels = t.intermittent_channels := by
  unfold traceStepId
  repeat' split
  all_goals simp

theorem traceStepType_preserves (e : Elem) (t : Trace) :
    (traceStepType e t).channels = t.channels ∧
    (traceStepType e t).intermittent_channels = t.intermittent_channels := by
  unfold traceStepType
  repeat' split
  all_goals simp

theorem traceStepTimes_preserves (e : Elem) (t : Trace) :
    (traceStepTimes e t).channels = t.channels ∧
    (traceStepTimes e t).intermittent_channels = t.intermittent_channels := by
  unfold traceStepTimes
  repeat' split
  all_goals simp

/-! ### Claim C3: cardinality check failures -/

theorem parsePoint_bad (nr nc i : ℕ) (p : List Char) (rcs : List RegChan)
    (ics : List IntChan)
    (h : (tokenizePoint (stripChars p)).length < nr ∨
         nc < (tokenizePoint (stripChars p)).length) :
    parsePoint nr nc i p rcs ics = .fail := by
  unfold parsePoint
  rcases h with h | h <;> simp [h]

theorem parsePoints_bad (nr nc : ℕ) (points : List (List Char)) :
    ∀ (i : ℕ) (rcs : List RegChan) (ics : List IntChan),
      (∃ p ∈ points, (tokenizePoint (stripChars p)).length < nr ∨
          nc < (tokenizePoint (stripChars p)).length) →
      parsePoints nr nc points i rcs ics = .fail ∨
      parsePoints nr nc points i rcs ics = .crash := by
  induction points with
  | nil => intro i rcs ics h; exact absurd h (by simp)
  | cons p rest ih =>
    intro i rcs ics h
    rcases h with ⟨q, hq, hbad⟩
    rcases List.mem_cons.mp hq with rfl | hmem
    · left
      simp only [parsePoints, parsePoint_bad nr nc i q rcs ics hbad]
      rfl
    · simp only [parsePoints]
      cases hp : parsePoint nr nc i p rcs ics with
      | ok s =>
        simpa [RRes.bind] using ih (i + 1) s.1 s.2 ⟨q, hmem, hbad⟩
      | fail => left; rfl
      | crash => right; rfl

/-- A point of the trace body with a token count below the regular-channel
count or above the total channel count. -/
def hasBadPoint (content : String) (tf : TraceFormat) : Prop :=
  ∃ p ∈ splitOnChar ',' content.data,
    (tokenizePoint (stripChars p)).length < tf.regular_channels.length ∨
    tf.regular_channels.length + tf.intermittent_channels.length <
      (tokenizePoint (stripChars p)).length

theorem parse_trace_content_bad (content : String) (tf : TraceFormat)
    (h : hasBadPoint content tf) :
    parse_trace_content content tf = .fail ∨ parse_trace_content content tf = .crash := by
  unfold parse_trace_content
  exact parsePoints_bad _ _ _ 0 _ _ (by simpa [hasBadPoint, List.length_map] using h)

/-- C3 (amended): a trace body containing a point whose token count is below
the regular-channel count or above the regular-plus-intermittent count makes
the whole trace decode fail (or, via the intermittent-index defect of the
source, crash); the trace is then *omitted* from the returned document — it
is not kept with empty channel maps as the claim states (see
`c3_counterexample`).  `t1` is the trace state after the contextRef step, so
`get_trace_format t1.context actx` is the effective trace format the decoder
will use. -/
theorem c3_bad_point_drops_trace (alr rr : Bool) (e : Elem) (defs : Defs)
    (actx : Option Context) (content : String) (t1 : Trace)
    (htext : e.text = some content)
    (hstep : traceStepContext alr e defs rr {} = .ok t1)
    (hbad : hasBadPoint content (get_trace_format t1.context actx)) :
    (read_trace alr e defs actx rr = .fail ∨ read_trace alr e defs actx rr = .crash) ∧
    (∀ rest, e.tag = "trace" → read_trace alr e defs actx true = .fail →
      read_traces alr (e :: rest) defs actx = read_traces alr rest defs actx) := by
  constructor
  · unfold read_trace
    rw [hstep]
    simp only [RRes.bind]
    cases hb2 : traceStepBrush alr e defs rr t1 with
    | fail => left; rfl
    | crash => right; rfl
    | ok t2 =>
      simp only [RRes.bind]
      cases hp3 : traceStepPrior alr e defs rr (traceStepContinuation e t2) with
      | fail => left; rfl
      | crash => right; rfl
      | ok td =>
        simp only [RRes.bind]
        have hctx : td.1.context = t1.context := by
          rw [traceStepPrior_ok _ _ _ _ _ _ hp3, (traceStepContinuation_ok e t2).1,
            (traceStepBrush_ok _ _ _ _ _ _ hb2).1]
        unfold traceStepText
        rw [htext, hctx]
        rcases parse_trace_content_bad content _ hbad with hp | hp <;> simp [hp]
  · intro rest htag hfail
    rw [read_traces, if_pos htag, hfail]

/-- Witness for C3 at a concrete input: a `<trace>` element with body `10`
(one token) read under the default two-channel format — the resulting
document equals the one read without the element. -/
theorem c3_witness :
    read_traces false [Elem.mk "trace" [] (some "10") []] {} none =
      read_traces false [] {} none := by
  have h := c3_bad_point_drops_trace false true (Elem.mk "trace" [] (some "10") [])
    {} none "10" {} rfl rfl (by unfold hasBadPoint; decide)
  exact h.2 [] rfl (by decide)

/-- C3 counterexample: for the same failing input the returned document holds
*no* trace at all (the claim asserts it still contains the trace with empty
channel maps). -/
theorem c3_counterexample :
    read_traces false [Elem.mk "trace" [] (some "10") []] {} none =
      .ok ([], ({} : Defs)) := by
  decide

/-! ### Claim C10: text-less trace elements -/

theorem read_traces_ne_fail (alr : Bool) :
    ∀ (elems : List Elem) (defs : Defs) (ctx : Option Context),
      read_traces alr elems defs ctx ≠ .fail := by
  intro elems
  induction elems with
  | nil => intro defs ctx h; exact RRes.noConfusion h
  | cons e rest ih =>
    intro defs ctx h
    rw [read_traces] at h
    by_cases htag : e.tag = "trace"
    · rw [if_pos htag] at h
      cases hr : read_trace alr e defs ctx true with
      | ok td =>
        rw [hr] at h
        simp only [] at h
        cases hrr : read_traces alr rest
            (if td.1.id ≠ "" then
              { td.2 with traces := dictInsert td.2.traces td.1.id td.1 }
             else td.2) ctx with
        | ok r => rw [hrr] at h; exact RRes.noConfusion h
        | fail => exact ih _ ctx hrr
        | crash => rw [hrr] at h; exact RRes.noConfusion h
      | fail => rw [hr] at h; exact ih defs ctx h
      | crash => rw [hr] at h; exact RRes.noConfusion h
    · rw [if_neg htag] at h
      exact ih defs ctx h

/-- C10 (amended): when a `<trace>` element has no text content and its read
succeeds (as it does whenever its references resolve), the returned trace has
empty regular- and intermittent-channel maps, and it *is* included in the
document.  The claim's unconditional "returns a Trace that is included"
fails when a reference does not resolve (see `c10_counterexample`). -/
theorem c10_textless_trace_empty_channels (alr rr : Bool) (e : Elem) (defs : Defs)
    (actx : Option Context) (td : Trace × Defs)
    (htext : e.text = none)
    (hok : read_trace alr e defs actx rr = .ok td) :
    td.1.channels = [] ∧ td.1.intermittent_channels = [] ∧
    (rr = true → e.tag = "trace" → ∀ rest : List Elem,
      (∃ ts d2, read_traces alr (e :: rest) defs actx = .ok (td.1 :: ts, d2)) ∨
      read_traces alr (e :: rest) defs actx = .crash) := by
  unfold read_trace at hok
  simp only [RRes.bind_ok_iff] at hok
  obtain ⟨t1, h1, t2, h2, td3, h3, t4, h4, hfin⟩ := hok
  have hfin2 : (traceStepTimes e (traceStepType e (traceStepId e t4)), td3.2) = td :=
    RRes.ok.inj hfin
  have ht4 : t4 = td3.1 := by
    unfold traceStepText at h4
    rw [htext] at h4
    exact (RRes.ok.inj h4).symm
  have hch : td.1.channels = [] ∧ td.1.intermittent_channels = [] := by
    rw [← hfin2]
    have e1 := traceStepTimes_preserves e (traceStepType e (traceStepId e t4))
    have e2 := traceStepType_preserves e (traceStepId e t4)
    have e3 := traceStepId_preserves e t4
    have e4 := traceStepPrior_ok _ _ _ _ _ _ h3
    have e5 := traceStepContinuation_ok e t2
    have e6 := traceStepBrush_ok _ _ _ _ _ _ h2
    have e7 := traceStepContext_channels _ _ _ _ _ _ h1
    constructor
    · show (traceStepTimes e (traceStepType e (traceStepId e t4))).channels = []
      rw [e1.1, e2.1, e3.1, ht4, e4, e5.2.1, e6.2.1, e7.1]
    · show (traceStepTimes e (traceStepType e (traceStepId e t4))).intermittent_channels = []
      rw [e1.2, e2.2, e3.2, ht4, e4, e5.2.2, e6.2.2, e7.2]
  refine ⟨hch.1, hch.2, fun hrr htag rest => ?_⟩
  subst hrr
  have hshow : read_trace alr e defs actx true = .ok td := by
    unfold read_trace
    simp only [RRes.bind_ok_iff]
    exact ⟨t1, h1, t2, h2, td3, h3, t4, h4, hfin⟩
  have hbig : read_traces alr (e :: rest) defs actx =
      (read_traces alr rest
        (if td.1.id ≠ "" then { td.2 with traces := dictInsert td.2.traces td.1.id td.1 }
         else td.2) actx).bind (fun r => .ok (td.1 :: r.1, r.2)) := by
    rw [read_traces, if_pos htag, hshow]
  rw [hbig]
  cases hrr2 : read_traces alr rest
      (if td.1.id ≠ "" then { td.2 with traces := dictInsert td.2.traces td.1.id td.1 }
       else td.2) actx with
  | ok r => exact Or.inl ⟨r.1, r.2, rfl⟩
  | fail => exact absurd hrr2 (read_traces_ne_fail alr rest _ actx)
  | crash => exact Or.inr rfl

/-- Witness for C10 at a concrete input: a bare `<trace>` element with no
attributes and no text, read against empty definitions. -/
theorem c10_witness :
    ({} : Trace).channels = [] ∧ ({} : Trace).intermittent_channels = [] ∧
    (true = true → (Elem.mk "trace" [] none []).tag = "trace" → ∀ rest : List Elem,
      (∃ ts d2, read_traces false (Elem.mk "trace" [] none [] :: rest) {} none =
          .ok (({} : Trace) :: ts, d2)) ∨
      read_traces false (Elem.mk "trace" [] none [] :: rest) {} none = .crash) :=
  c10_textless_trace_empty_channels false true (Elem.mk "trace" [] none [])
    {} none ({}, {}) rfl (by decide)

/-- C10 counterexample: a `<trace>` element with no text but a dangling
`contextRef` is dropped entirely — the decoder returns no trace at all, so
the claim's unconditional "returns a Trace that is included in the document"
fails. -/
theorem c10_counterexample :
    read_trace false (Elem.mk "trace" [("contextRef", "#missing")] none []) {} none true =
      .fail ∧
    read_traces false [Elem.mk "trace" [("contextRef", "#missing")] none []] {} none =
      .ok ([], ({} : Defs)) := by
  exact ⟨by decide, by decide⟩

/-! ### Claim C4: brush parent resolution -/

theorem lookup_some_of_mem_nodup :
    ∀ {l : List (String × String)} {id p : String},
      (l.map Prod.fst).Nodup → (id, p) ∈ l → l.lookup id = some p := by
  intro l
  induction l with
  | nil => intro id p _ hm; cases hm
  | cons hd tl ih =>
    intro id p hnd hm
    rcases List.mem_cons.mp hm with rfl | hm2
    · simp [List.lookup]
    · have hne : id ≠ hd.1 := by
        intro hcontra
        have : hd.1 ∈ tl.map Prod.fst := by
          rw [← hcontra]
          exact List.mem_map.mpr ⟨(id, p), hm2, rfl⟩
        exact (List.nodup_cons.mp (by simpa using hnd)).1 this
      cases hd with
      | mk k v =>
        have hbeq : (id == k) = false := beq_eq_false_iff_ne.mpr hne
        simp only [List.lookup, hbeq]
        exact ih (List.nodup_cons.mp (by simpa using hnd)).2 hm2

theorem prefOf_eq_of_mem {brushes : List (String × String)} {id p : String}
    (hnd : (brushes.map Prod.fst).Nodup) (hm : (id, p) ∈ brushes) :
    prefOf brushes id = p := by
  unfold prefOf
  rw [lookup_some_of_mem_nodup hnd hm]
  rfl

theorem BrushResolvable_mem {brushes : List (String × String)} {id : String}
    (h : BrushResolvable brushes id) : id ∈ brushes.map Prod.fst := by
  cases h with
  | seed _ p hm _ => exact List.mem_map.mpr ⟨(id, p), hm, rfl⟩
  | step _ p hm _ _ => exact List.mem_map.mpr ⟨(id, p), hm, rfl⟩

theorem mem_keys_iff_pair (brushes : List (String × String)) (id : String) :
    id ∈ brushes.map Prod.fst ↔ ∃ p, (id, p) ∈ brushes := by
  constructor
  · intro h
    rcases List.mem_map.mp h with ⟨pair, hm, heq⟩
    exact ⟨pair.2, by rw [← heq]; exact hm⟩
  · rintro ⟨p, hm⟩
    exact List.mem_map.mpr ⟨(id, p), hm, rfl⟩

/-- Invariants of the fixed-point loop: resolved ids are `BrushResolvable`;
backlog ids are keys with non-seed references; resolved and backlog cover the
keys; and, provided the fuel covers the backlog, at exit no backlog id has a
resolved parent (the stage is empty). -/
theorem resolveLoop_spec (brushes : List (String × String))
    (hnd : (brushes.map Prod.fst).Nodup) :
    ∀ (fuel : ℕ) (resolved backlog : List String),
      backlog.length ≤ fuel →
      (∀ id ∈ resolved, BrushResolvable brushes id) →
      (∀ id ∈ backlog, id ∈ brushes.map Prod.fst) →
      (∀ id ∈ backlog, isSeedRef (prefOf brushes id) = false) →
      (∀ id ∈ brushes.map Prod.fst, id ∈ resolved ∨ id ∈ backlog) →
      (∀ id ∈ (resolveLoop (prefOf brushes) fuel resolved backlog).1,
          BrushResolvable brushes id) ∧
      (∀ id ∈ (resolveLoop (prefOf brushes) fuel resolved backlog).2,
          id ∈ brushes.map Prod.fst) ∧
      (∀ id ∈ (resolveLoop (prefOf brushes) fuel resolved backlog).2,
          isSeedRef (prefOf brushes id) = false) ∧
      (∀ id ∈ brushes.map Prod.fst,
          id ∈ (resolveLoop (prefOf brushes) fuel resolved backlog).1 ∨
          id ∈ (resolveLoop (prefOf brushes) fuel resolved backlog).2) ∧
      (∀ id ∈ (resolveLoop (prefOf brushes) fuel resolved backlog).2,
          to_local_id (prefOf brushes id) ∉
            (resolveLoop (prefOf brushes) fuel resolved backlog).1) := by
  intro fuel
  induction fuel with
  | zero =>
    intro resolved backlog hlen hs hk hc hp
    have hb : backlog = [] := List.length_eq_zero.mp (Nat.le_zero.mp hlen)
    subst hb
    simp only [resolveLoop]
    refine ⟨hs, by simp, by simp, ?_, by simp⟩
    intro id hid
    rcases hp id hid with h | h
    · exact Or.inl h
    · cases h
  | succ n ih =>
    intro resolved backlog hlen hs hk hc hp
    by_cases hb : backlog.isEmpty
    · rw [resolveLoop, if_pos hb]
      have hbe : backlog = [] := List.isEmpty_iff.mp hb
      subst hbe
      refine ⟨hs, by simp, by simp, ?_, by simp⟩
      intro id hid
      rcases hp id hid with h | h
      · exact Or.inl h
      · cases h
    · rw [resolveLoop, if_neg hb]
      by_cases hst : (resolveStage (prefOf brushes) resolved backlog).isEmpty
      · rw [if_pos hst]
        refine ⟨hs, hk, hc, hp, ?_⟩
        intro id hid hmem
        have hempty : ∀ a ∈ backlog, ¬ (resolved.contains (to_local_id (prefOf brushes a)) = true) := by
          have := List.isEmpty_iff.mp hst
          unfold resolveStage at this
          exact fun a ha => by
            have := List.filter_eq_nil_iff.mp this a ha
            simpa using this
        exact hempty id hid (by simpa using hmem)
      · rw [if_neg hst]
        have hstage_sub : ∀ id ∈ resolveStage (prefOf brushes) resolved backlog, id ∈ backlog :=
          fun id hid => (List.mem_filter.mp hid).1
        have hstage_cond : ∀ id ∈ resolveStage (prefOf brushes) resolved backlog,
            to_local_id (prefOf brushes id) ∈ resolved := by
          intro id hid
          have := (List.mem_filter.mp hid).2
          simpa using this
        have hs2 : ∀ id ∈ resolved ++ resolveStage (prefOf brushes) resolved backlog,
            BrushResolvable brushes id := by
          intro id hid
          rcases List.mem_append.mp hid with h | h
          · exact hs id h
          · have hkey := hk id (hstage_sub id h)
            rcases (mem_keys_iff_pair brushes id).mp hkey with ⟨p, hmem⟩
            have hpref : prefOf brushes id = p := prefOf_eq_of_mem hnd hmem
            refine BrushResolvable.step id p hmem ?_ ?_
            · rw [← hpref]; exact hc id (hstage_sub id h)
            · rw [← hpref]
              exact hs _ (hstage_cond id h)
        have hlen2 : (backlog.filter
            (fun id => !(resolveStage (prefOf brushes) resolved backlog).contains id)).length ≤ n := by
          have hlt : (backlog.filter
              (fun id => !(resolveStage (prefOf brushes) resolved backlog).contains id)).length <
              backlog.length := by
            apply List.length_filter_lt_length_iff_exists.mpr
            cases hcase : resolveStage (prefOf brushes) resolved backlog with
            | nil => exact absurd (by simp [hcase]) hst
            | cons y ys =>
              refine ⟨y, hstage_sub y (by simp [hcase]), ?_⟩
              simp [hcase]
          omega
        have hk2 : ∀ id ∈ backlog.filter
            (fun id => !(resolveStage (prefOf brushes) resolved backlog).contains id),
            id ∈ brushes.map Prod.fst :=
          fun id hid => hk id (List.mem_filter.mp hid).1
        have hc2 : ∀ id ∈ backlog.filter
            (fun id => !(resolveStage (prefOf brushes) resolved backlog).contains id),
            isSeedRef (prefOf brushes id) = false :=
          fun id hid => hc id (List.mem_filter.mp hid).1
        have hp2 : ∀ id ∈ brushes.map Prod.fst,
            id ∈ resolved ++ resolveStage (prefOf brushes) resolved backlog ∨
            id ∈ backlog.filter
              (fun id => !(resolveStage (prefOf brushes) resolved backlog).contains id) := by
          intro id hid
          rcases hp id hid with h | h
          · exact Or.inl (List.mem_append.mpr (Or.inl h))
          · by_cases hin : id ∈ resolveStage (prefOf brushes) resolved backlog
            · exact Or.inl (List.mem_append.mpr (Or.inr hin))
            · refine Or.inr (List.mem_filter.mpr ⟨h, ?_⟩)
              simpa using hin
        exact ih (resolved ++ resolveStage (prefOf brushes) resolved backlog)
          (backlog.filter
            (fun id => !(resolveStage (prefOf brushes) resolved backlog).contains id))
          hlen2 hs2 hk2 hc2 hp2

/-- At a stopped state of the loop (no backlog id has a resolved parent), no
resolvable id can sit in the backlog. -/
theorem resolvable_not_in_backlog (brushes : List (String × String))
    (hnd : (brushes.map Prod.fst).Nodup) (fr fb : List String)
    (hpart : ∀ x ∈ brushes.map Prod.fst, x ∈ fr ∨ x ∈ fb)
    (hcond : ∀ x ∈ fb, isSeedRef (prefOf brushes x) = false)
    (hstop : ∀ x ∈ fb, to_local_id (prefOf brushes x) ∉ fr) :
    ∀ id, BrushResolvable brushes id → id ∉ fb := by
  intro id h
  induction h with
  | seed id p hm hseed =>
    intro hin
    have hfalse := hcond id hin
    rw [prefOf_eq_of_mem hnd hm, hseed] at hfalse
    exact Bool.noConfusion hfalse
  | step id p hm hns hrec ihrec =>
    intro hin
    have hkey : to_local_id p ∈ brushes.map Prod.fst := BrushResolvable_mem hrec
    rcases hpart _ hkey with hfr | hfb
    · have := hstop id hin
      rw [prefOf_eq_of_mem hnd hm] at this
      exact this hfr
    · exact ihrec hfb

/-- The ids dropped by `resolve_brush_parent_references` are exactly the keys
that are not `BrushResolvable`. -/
theorem resolve_brush_ignored_iff (brushes : List (String × String))
    (hnd : (brushes.map Prod.fst).Nodup) (id : String) :
    id ∈ resolve_brush_parent_references brushes ↔
      (id ∈ brushes.map Prod.fst ∧ ¬ BrushResolvable brushes id) := by
  have hs0 : ∀ x ∈ (brushes.filter (fun b => isSeedRef b.2)).map (fun b => b.1),
      BrushResolvable brushes x := by
    intro x hx
    rcases List.mem_map.mp hx with ⟨b, hbmem, rfl⟩
    exact BrushResolvable.seed b.1 b.2 (List.mem_filter.mp hbmem).1
      (List.mem_filter.mp hbmem).2
  have hk0 : ∀ x ∈ (brushes.filter (fun b => !isSeedRef b.2)).map (fun b => b.1),
      x ∈ brushes.map Prod.fst := by
    intro x hx
    rcases List.mem_map.mp hx with ⟨b, hbmem, rfl⟩
    exact List.mem_map.mpr ⟨b, (List.mem_filter.mp hbmem).1, rfl⟩
  have hc0 : ∀ x ∈ (brushes.filter (fun b => !isSeedRef b.2)).map (fun b => b.1),
      isSeedRef (prefOf brushes x) = false := by
    intro x hx
    rcases List.mem_map.mp hx with ⟨b, hbmem, rfl⟩
    have hpf : prefOf brushes b.1 = b.2 :=
      prefOf_eq_of_mem hnd (by
        have := (List.mem_filter.mp hbmem).1
        simpa using this)
    rw [hpf]
    have := (List.mem_filter.mp hbmem).2
    simpa using this
  have hp0 : ∀ x ∈ brushes.map Prod.fst,
      x ∈ (brushes.filter (fun b => isSeedRef b.2)).map (fun b => b.1) ∨
      x ∈ (brushes.filter (fun b => !isSeedRef b.2)).map (fun b => b.1) := by
    intro x hx
    rcases List.mem_map.mp hx with ⟨b, hbmem, rfl⟩
    by_cases hseed : isSeedRef b.2
    · exact Or.inl (List.mem_map.mpr ⟨b, List.mem_filter.mpr ⟨hbmem, hseed⟩, rfl⟩)
    · exact Or.inr (List.mem_map.mpr ⟨b, List.mem_filter.mpr ⟨hbmem, by simpa using hseed⟩, rfl⟩)
  obtain ⟨sA, sK, sC, sP, sStop⟩ := resolveLoop_spec brushes hnd
    ((brushes.filter (fun b => !isSeedRef b.2)).map (fun b => b.1)).length
    ((brushes.filter (fun b => isSeedRef b.2)).map (fun b => b.1))
    ((brushes.filter (fun b => !isSeedRef b.2)).map (fun b => b.1))
    le_rfl hs0 hk0 hc0 hp0
  show id ∈ (resolveLoop (prefOf brushes)
      ((brushes.filter (fun b => !isSeedRef b.2)).map (fun b => b.1)).length
      ((brushes.filter (fun b => isSeedRef b.2)).map (fun b => b.1))
      ((brushes.filter (fun b => !isSeedRef b.2)).map (fun b => b.1))).2 ↔ _
  constructor
  · intro hin
    refine ⟨sK id hin, fun hres => ?_⟩
    exact resolvable_not_in_backlog brushes hnd _ _ sP sC sStop id hres hin
  · rintro ⟨hkey, hnres⟩
    rcases sP id hkey with h | h
    · exact absurd (sA id h) hnres
    · exact h

/-- Every resolvable brush has a finite parent chain. -/
theorem brushChainEnds_of_resolvable (brushes : List (String × String))
    (hnd : (brushes.map Prod.fst).Nodup) :
    ∀ id, BrushResolvable brushes id → ∃ n, brushChainEnds brushes n id = true := by
  intro id h
  induction h with
  | seed id p hm hseed =>
    refine ⟨1, ?_⟩
    simp [brushChainEnds, brushParentOf, prefOf_eq_of_mem hnd hm, hseed]
  | step id p hm hns hrec ihrec =>
    rcases ihrec with ⟨n, hn⟩
    refine ⟨n + 1, ?_⟩
    simp [brushChainEnds, brushParentOf, prefOf_eq_of_mem hnd hm, hns, hn]

theorem to_local_id_hash (c : String) (hc : c ≠ "") :
    to_local_id ("#" ++ c) = c := by
  have hd : ("#" ++ c).data = hashChar :: c.data := by
    rw [String.data_append]
    rfl
  have hlocal : is_local_id ("#" ++ c) = true := by
    unfold is_local_id
    rw [hd]
    cases hcd : c.data with
    | nil =>
      exact absurd (by cases c with | mk d => cases hcd; rfl) hc
    | cons d ds => simp
  unfold to_local_id
  rw [if_pos hlocal, hd]
  cases c with
  | mk d => rfl

/-- Members of a pure reference cycle (each member's parent reference names
another member) are all dropped. -/
theorem cycle_members_ignored (brushes : List (String × String))
    (hnd : (brushes.map Prod.fst).Nodup) (C : List String)
    (hkeys : ∀ c ∈ C, c ∈ brushes.map Prod.fst)
    (hcyc : ∀ c ∈ C, ∃ c2 ∈ C, c2 ≠ "" ∧ c2 ≠ "DefaultBrush" ∧
        prefOf brushes c = "#" ++ c2) :
    ∀ c ∈ C, c ∈ resolve_brush_parent_references brushes := by
  have hnotres : ∀ x, BrushResolvable brushes x → x ∉ C := by
    intro x hx
    induction hx with
    | seed id p hm hseed =>
      intro hin
      rcases hcyc id hin with ⟨c2, _, hc2ne, hc2nd, hpref⟩
      rw [prefOf_eq_of_mem hnd hm] at hpref
      subst hpref
      simp only [isSeedRef, Bool.or_eq_true, decide_eq_true_eq] at hseed
      rcases hseed with h1 | h1
      · have h3 := congrArg String.data h1
        rw [String.data_append] at h3
        have h4 : "#".data = [hashChar] := rfl
        rw [h4] at h3
        simp at h3
      · have h4 : c2 = "DefaultBrush" := by
          have h5 := congrArg to_local_id h1
          rwa [to_local_id_hash c2 hc2ne,
            show to_local_id "#DefaultBrush" = "DefaultBrush" by decide] at h5
        exact hc2nd h4
    | step id p hm hns hrec ihrec =>
      intro hin
      rcases hcyc id hin with ⟨c2, hc2in, hc2ne, hc2nd, hpref⟩
      rw [prefOf_eq_of_mem hnd hm] at hpref
      apply ihrec
      rw [hpref, to_local_id_hash c2 hc2ne]
      exact hc2in
  intro c hc
  exact (resolve_brush_ignored_iff brushes hnd c).mpr
    ⟨hkeys c hc, fun hres => hnotres c hres hc⟩

/-- C4: after brush reference resolution, (i) the dropped ids are exactly the
brushes whose parent reference never resolves (not `BrushResolvable`): cyclic
or dangling non-empty references other than `#DefaultBrush`; no other brush
is removed; (ii) every brush kept in the definitions is resolvable and every
resolvable brush has a finite, terminating (hence acyclic) parent chain;
(iii) the deletion and the single consolidated warning list exactly the
dropped ids; and (iv) the members of any parent cycle are all dropped. -/
theorem c4_brush_resolution (brushes : List (String × String))
    (hnd : (brushes.map Prod.fst).Nodup) :
    (∀ id, id ∈ resolve_brush_parent_references brushes ↔
      (id ∈ brushes.map Prod.fst ∧ ¬ BrushResolvable brushes id)) ∧
    (∀ b ∈ (applyBrushResolution brushes).1, BrushResolvable brushes b.1) ∧
    (∀ id, BrushResolvable brushes id → ∃ n, brushChainEnds brushes n id = true) ∧
    ((applyBrushResolution brushes).2 =
      if (resolve_brush_parent_references brushes).isEmpty then none
      else some (resolve_brush_parent_references brushes)) ∧
    (∀ C : List String, (∀ c ∈ C, c ∈ brushes.map Prod.fst) →
      (∀ c ∈ C, ∃ c2 ∈ C, c2 ≠ "" ∧ c2 ≠ "DefaultBrush" ∧
          prefOf brushes c = "#" ++ c2) →
      ∀ c ∈ C, c ∈ resolve_brush_parent_references brushes) := by
  refine ⟨resolve_brush_ignored_iff brushes hnd, ?_,
    brushChainEnds_of_resolvable brushes hnd, rfl, cycle_members_ignored brushes hnd⟩
  intro b hb
  unfold applyBrushResolution at hb
  simp only [List.mem_filter] at hb
  rcases hb with ⟨hbmem, hbnot⟩
  by_contra hres
  have hkey : b.1 ∈ brushes.map Prod.fst := List.mem_map.mpr ⟨b, hbmem, rfl⟩
  have : b.1 ∈ resolve_brush_parent_references brushes :=
    (resolve_brush_ignored_iff brushes hnd b.1).mpr ⟨hkey, hres⟩
  have h6 : (resolve_brush_parent_references brushes).contains b.1 = true := by
    simpa using this
  rw [h6] at hbnot
  exact Bool.noConfusion hbnot

/-- Witness for C4 at a concrete input: the brush table
`a→#b, b→#c, c→#a, d→(no parent)` — the characterization instantiated at id
`a`. -/
theorem c4_witness :
    "a" ∈ resolve_brush_parent_references [("a", "#b"), ("b", "#c"), ("c", "#a"), ("d", "")] ↔
      ("a" ∈ [("a", "#b"), ("b", "#c"), ("c", "#a"), ("d", "")].map Prod.fst ∧
       ¬ BrushResolvable [("a", "#b"), ("b", "#c"), ("c", "#a"), ("d", "")] "a") :=
  (c4_brush_resolution [("a", "#b"), ("b", "#c"), ("c", "#a"), ("d", "")] (by decide)).1 "a"


/-! ### Concrete evaluations of the token pipeline

These pin the embedding to the specification's examples: the tokenizer on
representative point texts, and the regular-channel token processor's
character-level marker semantics (`'` first difference, `"` second
difference, `!` explicit, no marker = current order; `#…` hexadecimal). -/

/-- Tokenizations of representative point texts (whitespace is carried along
inside numeric tokens, markers bind to the following number, `1e10` splits
because the exponent takes a single digit). -/
theorem tokenizePoint_examples :
    tokenizePoint "10 20".data = [['1', '0'], [' ', '2', '0']] ∧
    tokenizePoint "#A 0".data = [[hashChar, 'A'], [' ', '0']] ∧
    tokenizePoint "- 5,x".data = [['-', ' ', '5']] ∧
    tokenizePoint "1 1 ?".data = [['1'], [' ', '1'], ['?']] ∧
    tokenizePoint "T F * ?".data = [['T'], ['F'], ['*'], ['?']] := by
  refine ⟨by decide, by decide, by decide, by decide, by decide⟩

/-- Character-level marker semantics of the regular-channel processor. -/
theorem processRegularToken_marker_semantics :
    processRegularToken (RegChan.mk "X" .Decimal [5] .Explicit none) [squoteChar, '2'] =
      .ok (RegChan.mk "X" .Decimal [5, 7] .Difference (some 2)) ∧
    processRegularToken (RegChan.mk "X" .Decimal [5] .Difference (some 1)) [dquoteChar, '2'] =
      .ok (RegChan.mk "X" .Decimal [5, 8] .SecondDifference (some 3)) ∧
    processRegularToken (RegChan.mk "X" .Decimal [5] .Difference (some 1)) [bangChar, '2'] =
      .ok (RegChan.mk "X" .Decimal [5, 2] .Explicit none) ∧
    processRegularToken (RegChan.mk "X" .Decimal [5] .Difference (some 1)) ['2'] =
      .ok (RegChan.mk "X" .Decimal [5, 7] .Difference (some 2)) ∧
    processRegularToken (RegChan.mk "X" .Integer [] .Explicit none) [hashChar, '1', 'F'] =
      .ok (RegChan.mk "X" .Integer [31] .Explicit none) := by
  refine ⟨?_, ?_, ?_, ?_, ?_⟩
  · simp [processRegularToken, stripChars, parseDecimalNum, parseUnsignedFloat, parseExpPart,
      digitsVal, digitVal, appendNumeric, squoteChar, dquoteChar, bangChar, hashChar,
      isDigitChar, isWsChar, roundIfInteger]
    norm_num
  · simp [processRegularToken, stripChars, parseDecimalNum, parseUnsignedFloat, parseExpPart,
      digitsVal, digitVal, appendNumeric, squoteChar, dquoteChar, bangChar, hashChar,
      isDigitChar, isWsChar, roundIfInteger]
    norm_num
  · simp [processRegularToken, stripChars, parseDecimalNum, parseUnsignedFloat, parseExpPart,
      digitsVal, digitVal, appendNumeric, squoteChar, dquoteChar, bangChar, hashChar,
      isDigitChar, isWsChar, roundIfInteger]
  · simp [processRegularToken, stripChars, parseDecimalNum, parseUnsignedFloat, parseExpPart,
      digitsVal, digitVal, appendNumeric, squoteChar, dquoteChar, bangChar, hashChar,
      isDigitChar, isWsChar, roundIfInteger]
    norm_num
  · simp [processRegularToken, stripChars, parseHexNum, hexDigitVal, digitVal,
      appendNumeric, squoteChar, dquoteChar, bangChar, hashChar,
      isDigitChar, isHexDigitChar, isWsChar, roundIfInteger, pythonRound]
